import Mathlib

/-!
Verification development for the crowdstrike-cloudproto crate.

Bytes are modelled as `Nat` (with `< 256` bounds as hypotheses where they
matter), machine integers as `Nat` with explicit `% 2^w` where overflow or
truncation occurs in the Rust source.  Rust `Result` becomes `Except`,
`Option` stays `Option`.  Release-profile integer semantics (wrapping on
overflow/underflow, as produced by `as` casts and arithmetic with overflow
checks disabled) are used throughout.
-/

namespace CloudProto

instance {e a : Type} [DecidableEq e] [DecidableEq a] : DecidableEq (Except e a)
  | .error x, .error y =>
    if h : x = y then .isTrue (by rw [h]) else .isFalse (by simp [h])
  | .error _, .ok _ => .isFalse (by simp)
  | .ok _, .error _ => .isFalse (by simp)
  | .ok x, .ok y =>
    if h : x = y then .isTrue (by rw [h]) else .isFalse (by simp [h])

/-! ## Big-endian byte encodings (byteorder `BE` read/write) -/

/-- Bytes written by `write_u16::<BE>`. Truncates its argument to 16 bits by
construction of the byte extraction. -/
def u16beBytes (v : Nat) : List Nat :=
  [v / 2 ^ 8 % 256, v % 256]

/-- Bytes written by `write_u32::<BE>`. -/
def u32beBytes (v : Nat) : List Nat :=
  [v / 2 ^ 24 % 256, v / 2 ^ 16 % 256, v / 2 ^ 8 % 256, v % 256]

/-- Bytes written by `u64::to_be_bytes` / `write_u64::<BE>`. -/
def u64beBytes (v : Nat) : List Nat :=
  [v / 2 ^ 56 % 256, v / 2 ^ 48 % 256, v / 2 ^ 40 % 256, v / 2 ^ 32 % 256,
   v / 2 ^ 24 % 256, v / 2 ^ 16 % 256, v / 2 ^ 8 % 256, v % 256]

/-- Value read by `read_u16::<BE>` from two bytes. -/
def beU16 (b1 b0 : Nat) : Nat := b1 * 2 ^ 8 + b0

/-- Value read by `read_u32::<BE>` from four bytes. -/
def beU32 (b3 b2 b1 b0 : Nat) : Nat :=
  b3 * 2 ^ 24 + b2 * 2 ^ 16 + b1 * 2 ^ 8 + b0

/-- Byte of a list at an index, defaulting to 0 (indices are in range at
every use site that feeds a claim). -/
def byteAt (l : List Nat) (i : Nat) : Nat := l.getD i 0

/-- Value read by `read_u32::<BE>` at offset `i` of a byte list. -/
def readU32 (l : List Nat) (i : Nat) : Nat :=
  beU32 (byteAt l i) (byteAt l (i + 1)) (byteAt l (i + 2)) (byteAt l (i + 3))

/-- Value read by `u64::from_be_bytes` from (the first 8 bytes of) a list. -/
def readU64 (l : List Nat) : Nat :=
  byteAt l 0 * 2 ^ 56 + byteAt l 1 * 2 ^ 48 + byteAt l 2 * 2 ^ 40 +
  byteAt l 3 * 2 ^ 32 + byteAt l 4 * 2 ^ 24 + byteAt l 5 * 2 ^ 16 +
  byteAt l 6 * 2 ^ 8 + byteAt l 7

theorem beU16_u16beBytes (v : Nat) :
    beU16 (v / 2 ^ 8 % 256) (v % 256) = v % 2 ^ 16 := by
  simp only [beU16]
  omega

theorem beU32_u32beBytes (v : Nat) :
    beU32 (v / 2 ^ 24 % 256) (v / 2 ^ 16 % 256) (v / 2 ^ 8 % 256) (v % 256) = v % 2 ^ 32 := by
  simp only [beU32]
  omega

/-! ## Wire-tag types (src/services.rs, src/framing/hdr_version.rs,
src/services/ts/pkt_kind.rs, src/services/lfo/pkt_kind.rs) -/

/-- `CloudProtoMagic` from src/services.rs. -/
inductive CloudProtoMagic where
  | TS
  | LFO
  | Other (x : Nat)
deriving DecidableEq

/-- `impl From<CloudProtoMagic> for u8`. -/
def CloudProtoMagic.toU8 : CloudProtoMagic → Nat
  | .TS => 0x8F
  | .LFO => 0x9F
  | .Other x => x

/-- `impl From<u8> for CloudProtoMagic`: first matching guard wins. -/
def CloudProtoMagic.fromU8 (b : Nat) : CloudProtoMagic :=
  if b = 0x8F then .TS
  else if b = 0x9F then .LFO
  else .Other b

/-- `CloudProtoVersion` from src/framing/hdr_version.rs. -/
inductive CloudProtoVersion where
  | Normal
  | Connect
  | Other (x : Nat)
deriving DecidableEq

/-- `impl From<CloudProtoVersion> for u16`. -/
def CloudProtoVersion.toU16 : CloudProtoVersion → Nat
  | .Normal => 1
  | .Connect => 2
  | .Other x => x

/-- `impl From<u16> for CloudProtoVersion`. -/
def CloudProtoVersion.fromU16 (v : Nat) : CloudProtoVersion :=
  if v = 1 then .Normal
  else if v = 2 then .Connect
  else .Other v

/-- `TsPacketKind` from src/services/ts/pkt_kind.rs. -/
inductive TsPacketKind where
  | Connect
  | ConnectionEstablished
  | Event
  | Ack
  | Other (x : Nat)
deriving DecidableEq

/-- `impl From<TsPacketKind> for u8`. -/
def TsPacketKind.toU8 : TsPacketKind → Nat
  | .Connect => 1
  | .ConnectionEstablished => 2
  | .Event => 3
  | .Ack => 4
  | .Other x => x

/-- `impl From<u8> for TsPacketKind`. -/
def TsPacketKind.fromU8 (b : Nat) : TsPacketKind :=
  if b = 1 then .Connect
  else if b = 2 then .ConnectionEstablished
  else if b = 3 then .Event
  else if b = 4 then .Ack
  else .Other b

/-- `LfoPacketKind` from src/services/lfo/pkt_kind.rs. -/
inductive LfoPacketKind where
  | GetFileRequest
  | ReplyOk
  | ReplyFail
  | Other (x : Nat)
deriving DecidableEq

/-- `impl From<LfoPacketKind> for u8`. -/
def LfoPacketKind.toU8 : LfoPacketKind → Nat
  | .GetFileRequest => 1
  | .ReplyOk => 2
  | .ReplyFail => 3
  | .Other x => x

/-- `impl From<u8> for LfoPacketKind`. -/
def LfoPacketKind.fromU8 (b : Nat) : LfoPacketKind :=
  if b = 1 then .GetFileRequest
  else if b = 2 then .ReplyOk
  else if b = 3 then .ReplyFail
  else .Other b

/-! ## Framing errors and the packet codec (src/framing.rs,
src/framing/packet.rs) -/

/-- `CloudProtoError` from src/framing.rs. The `Io` variant (an opaque
`std::io::Error`) is collapsed to a single `IoErr` constructor; string
payloads are dropped. -/
inductive CloudProtoError where
  | BadMagic (got want : CloudProtoMagic)
  | BadVersion (got want : CloudProtoVersion)
  | BadFrameSize (got announced : Nat)
  | PayloadTooShort (got min : Nat)
  | PayloadInvalidSize (got expected : Nat)
  | WrongConnectionPacketKind (got want : Nat)
  | ClosedByPeer
  | IoErr
deriving DecidableEq

/-- `CloudProtoPacket` from src/framing/packet.rs.  `kind` is a raw `u8` in
the source and stays a `Nat` here. -/
structure CloudProtoPacket where
  magic : CloudProtoMagic
  kind : Nat
  version : CloudProtoVersion
  payload : List Nat
deriving DecidableEq

/-- `CloudProtoPacket::to_buf`: header (magic, kind, version u16 BE,
total length u32 BE counting the 8-byte header) then payload.  The
`(payload.len() + 8) as u32` cast truncates; `u32beBytes` performs that
truncation by construction. -/
def CloudProtoPacket.toBuf (p : CloudProtoPacket) : List Nat :=
  p.magic.toU8 :: p.kind :: (u16beBytes p.version.toU16 ++
    u32beBytes (p.payload.length + 8) ++ p.payload)

/-- `CloudProtoPacket::from_buf`.  Reading any of the 8 header bytes past
the end of the buffer fails with an io error (`IoErr`).  The source computes
`pkt_size` as `announced as usize - COMMON_HDR_LEN`; under release-profile
semantics that subtraction wraps modulo `2^64`, which the explicit
`(announced + 2^64 - 8) % 2^64` reproduces. -/
def CloudProtoPacket.fromBuf (buf : List Nat) : Except CloudProtoError CloudProtoPacket :=
  match buf with
  | m :: k :: v1 :: v0 :: s3 :: s2 :: s1 :: s0 :: rest =>
    let announced := beU32 s3 s2 s1 s0
    let pktSize := (announced + 2 ^ 64 - 8) % 2 ^ 64
    let remaining := rest.length
    if remaining ≠ pktSize then
      .error (.BadFrameSize remaining pktSize)
    else
      .ok ⟨CloudProtoMagic.fromU8 m, k, CloudProtoVersion.fromU16 (beU16 v1 v0), rest⟩
  | _ => .error .IoErr

theorem magic_toU8_fromU8 (b : Nat) :
    (CloudProtoMagic.fromU8 b).toU8 = b := by
  unfold CloudProtoMagic.fromU8
  split <;> try split
  all_goals simp_all [CloudProtoMagic.toU8]

theorem CloudProtoVersion.toU16_fromU16 (v : Nat) :
    (CloudProtoVersion.fromU16 v).toU16 = v := by
  unfold CloudProtoVersion.fromU16
  split <;> try split
  all_goals simp_all [CloudProtoVersion.toU16]

theorem tsKind_toU8_fromU8 (b : Nat) :
    (TsPacketKind.fromU8 b).toU8 = b := by
  unfold TsPacketKind.fromU8
  repeat' split
  all_goals simp_all [TsPacketKind.toU8]

theorem lfoKind_toU8_fromU8 (b : Nat) :
    (LfoPacketKind.fromU8 b).toU8 = b := by
  unfold LfoPacketKind.fromU8
  repeat' split
  all_goals simp_all [LfoPacketKind.toU8]

/-- Claim C2: for every magic byte, kind byte, 16-bit version and payload of
length at most `2^32 - 9`, decoding the encoding of the packet succeeds and
returns the original packet (`from_buf(to_buf(pkt)) == pkt`). -/
theorem packet_roundtrip (b k v : Nat) (payload : List Nat)
    (hb : b < 256) (hk : k < 256) (hv : v < 2 ^ 16)
    (hlen : payload.length ≤ 2 ^ 32 - 9) :
    CloudProtoPacket.fromBuf
      (CloudProtoPacket.toBuf
        ⟨CloudProtoMagic.fromU8 b, k, CloudProtoVersion.fromU16 v, payload⟩) =
    .ok ⟨CloudProtoMagic.fromU8 b, k, CloudProtoVersion.fromU16 v, payload⟩ := by
  simp only [CloudProtoPacket.toBuf, u16beBytes, u32beBytes,
    magic_toU8_fromU8, CloudProtoVersion.toU16_fromU16,
    List.cons_append, List.nil_append]
  simp only [CloudProtoPacket.fromBuf, beU32_u32beBytes, beU16_u16beBytes]
  split
  · exfalso
    omega
  · rw [Nat.mod_eq_of_lt hv]

/-- Claim C2 witness: the concrete packet of the repository test
`to_from_buf_serialization` (magic 0xFF, kind 0x73, version 0x10E9, payload
the 11 bytes of the string used there). -/
theorem packet_roundtrip_witness :
    CloudProtoPacket.fromBuf
      (CloudProtoPacket.toBuf
        ⟨CloudProtoMagic.fromU8 0xFF, 0x73, CloudProtoVersion.fromU16 0x10E9,
          [72, 101, 108, 108, 111, 32, 119, 111, 114, 108, 100]⟩) =
    .ok ⟨CloudProtoMagic.fromU8 0xFF, 0x73, CloudProtoVersion.fromU16 0x10E9,
          [72, 101, 108, 108, 111, 32, 119, 111, 114, 108, 100]⟩ :=
  packet_roundtrip 0xFF 0x73 0x10E9 _ (by decide) (by decide) (by decide) (by decide)

/-- Claim C3: `from_buf` is total on frames: with at least 8 bytes present,
if the announced total length at bytes 4..8 (big-endian u32) equals the
frame length the packet is returned with magic, kind, version from bytes
0, 1, 2..4 and payload bytes 8..; otherwise it fails with `BadFrameSize`.
(Frames shorter than 8 bytes fail with an io error inside the byte reads,
so the function always returns a packet or an error.)  The length bound
`rest.length + 8 < 2^64` is the Rust `usize` bound on the buffer. -/
theorem fromBuf_total (m k v1 v0 s3 s2 s1 s0 : Nat) (rest : List Nat)
    (hs3 : s3 < 256) (hs2 : s2 < 256) (hs1 : s1 < 256) (hs0 : s0 < 256)
    (hrest : rest.length + 8 < 2 ^ 64) :
    (beU32 s3 s2 s1 s0 = (m :: k :: v1 :: v0 :: s3 :: s2 :: s1 :: s0 :: rest).length →
      CloudProtoPacket.fromBuf (m :: k :: v1 :: v0 :: s3 :: s2 :: s1 :: s0 :: rest) =
        .ok ⟨CloudProtoMagic.fromU8 m, k, CloudProtoVersion.fromU16 (beU16 v1 v0), rest⟩) ∧
    (beU32 s3 s2 s1 s0 ≠ (m :: k :: v1 :: v0 :: s3 :: s2 :: s1 :: s0 :: rest).length →
      CloudProtoPacket.fromBuf (m :: k :: v1 :: v0 :: s3 :: s2 :: s1 :: s0 :: rest) =
        .error (.BadFrameSize rest.length ((beU32 s3 s2 s1 s0 + 2 ^ 64 - 8) % 2 ^ 64))) := by
  have hann : beU32 s3 s2 s1 s0 < 2 ^ 32 := by
    simp only [beU32]; omega
  constructor
  · intro heq
    simp only [List.length_cons] at heq
    simp only [CloudProtoPacket.fromBuf]
    split
    · exfalso
      omega
    · rfl
  · intro hne
    simp only [List.length_cons] at hne
    simp only [CloudProtoPacket.fromBuf]
    split
    · rfl
    · exfalso
      omega

/-- Claim C3 witness: an 11-byte frame announcing total length 11 decodes to
the 3-byte-payload packet, and the same bytes announcing 12 fail with
`BadFrameSize`. -/
theorem fromBuf_total_witness :
    (CloudProtoPacket.fromBuf [0x8F, 3, 0, 1, 0, 0, 0, 11, 7, 8, 9] =
      .ok ⟨CloudProtoMagic.fromU8 0x8F, 3, CloudProtoVersion.fromU16 (beU16 0 1), [7, 8, 9]⟩) ∧
    (CloudProtoPacket.fromBuf [0x8F, 3, 0, 1, 0, 0, 0, 12, 7, 8, 9] =
      .error (.BadFrameSize 3 ((beU32 0 0 0 12 + 2 ^ 64 - 8) % 2 ^ 64))) := by
  constructor
  · exact (fromBuf_total 0x8F 3 0 1 0 0 0 11 [7, 8, 9] (by decide) (by decide)
      (by decide) (by decide) (by decide)).1 (by decide)
  · exact (fromBuf_total 0x8F 3 0 1 0 0 0 12 [7, 8, 9] (by decide) (by decide)
      (by decide) (by decide) (by decide)).2 (by decide)

/-- Claim C8: every wire tag round-trips (decode then encode is the
identity on the raw integer), and for each raw value exactly one variant
matches: the named variant at its wire value, and `Other` holding the raw
value everywhere else. -/
theorem tag_roundtrip :
    (∀ b : Nat, (CloudProtoMagic.fromU8 b).toU8 = b ∧
      (CloudProtoMagic.fromU8 b = .TS ↔ b = 0x8F) ∧
      (CloudProtoMagic.fromU8 b = .LFO ↔ b = 0x9F) ∧
      (∀ x, CloudProtoMagic.fromU8 b = .Other x ↔ (x = b ∧ b ≠ 0x8F ∧ b ≠ 0x9F))) ∧
    (∀ b : Nat, (TsPacketKind.fromU8 b).toU8 = b ∧
      (TsPacketKind.fromU8 b = .Connect ↔ b = 1) ∧
      (TsPacketKind.fromU8 b = .ConnectionEstablished ↔ b = 2) ∧
      (TsPacketKind.fromU8 b = .Event ↔ b = 3) ∧
      (TsPacketKind.fromU8 b = .Ack ↔ b = 4) ∧
      (∀ x, TsPacketKind.fromU8 b = .Other x ↔
        (x = b ∧ b ≠ 1 ∧ b ≠ 2 ∧ b ≠ 3 ∧ b ≠ 4))) ∧
    (∀ b : Nat, (LfoPacketKind.fromU8 b).toU8 = b ∧
      (LfoPacketKind.fromU8 b = .GetFileRequest ↔ b = 1) ∧
      (LfoPacketKind.fromU8 b = .ReplyOk ↔ b = 2) ∧
      (LfoPacketKind.fromU8 b = .ReplyFail ↔ b = 3) ∧
      (∀ x, LfoPacketKind.fromU8 b = .Other x ↔ (x = b ∧ b ≠ 1 ∧ b ≠ 2 ∧ b ≠ 3))) ∧
    (∀ v : Nat, (CloudProtoVersion.fromU16 v).toU16 = v ∧
      (CloudProtoVersion.fromU16 v = .Normal ↔ v = 1) ∧
      (CloudProtoVersion.fromU16 v = .Connect ↔ v = 2) ∧
      (∀ x, CloudProtoVersion.fromU16 v = .Other x ↔ (x = v ∧ v ≠ 1 ∧ v ≠ 2))) := by
  refine ⟨fun b => ⟨magic_toU8_fromU8 b, ?_⟩,
    fun b => ⟨tsKind_toU8_fromU8 b, ?_⟩,
    fun b => ⟨lfoKind_toU8_fromU8 b, ?_⟩,
    fun v => ⟨CloudProtoVersion.toU16_fromU16 v, ?_⟩⟩
  · unfold CloudProtoMagic.fromU8
    repeat' split
    all_goals simp_all [eq_comm]
  · unfold TsPacketKind.fromU8
    repeat' split
    all_goals simp_all [eq_comm]
  · unfold LfoPacketKind.fromU8
    repeat' split
    all_goals simp_all [eq_comm]
  · unfold CloudProtoVersion.fromU16
    repeat' split
    all_goals simp_all [eq_comm]

/-! ## TS events (src/services/ts/event.rs) -/

/-- The raw `u32` values of the 41 catalogued `EventId` variants, in the
order of the source enum. -/
def eventIdCodes : List Nat :=
  [0x310000EF, 0x308000AA, 0x308000AD, 0x308001D2, 0x30800207, 0x30800208,
   0x3080020D, 0x3080028E, 0x30800296, 0x308002A2, 0x308002DC, 0x308002DD,
   0x308002E5, 0x308002E6, 0x308002F1, 0x3080034D, 0x3080037C, 0x30800457,
   0x30800550, 0x3080064E, 0x30800682, 0x3080069F, 0x30800850, 0x31000002,
   0x310001D1, 0x3100053F, 0x310005AB, 0x318002B1, 0x318002E5, 0x318002E6,
   0x318004BB, 0x3200014E, 0x32000220, 0x320002CF, 0x320002E5, 0x320002E6,
   0x32800139, 0x3280014E, 0x33000139, 0x338000AC, 0x340000EE]

/-- The `EventId` enum: a catalogued raw event id.  Each Rust variant is in
bijection with its `u32` discriminant, so the enum is modelled as the
subtype of catalogued codes (equality agrees with the Rust derived `Eq`). -/
def EventId : Type := {n : Nat // n ∈ eventIdCodes}

instance : DecidableEq EventId := fun a b =>
  decidable_of_iff (a.val = b.val) Subtype.ext_iff.symm

/-- `EventId::from_repr` (strum `FromRepr`): the variant whose discriminant
is `n`, if catalogued. -/
def EventId.fromRepr (n : Nat) : Option EventId :=
  if h : n ∈ eventIdCodes then some ⟨n, h⟩ else none

/-- `Event` from src/services/ts/event.rs. -/
structure Event where
  raw_event_id : Nat
  event_id : Option EventId
  data : List Nat
deriving DecidableEq

/-- `Event::new`. -/
def Event.new (id : EventId) (data : List Nat) : Event :=
  ⟨id.val, some id, data⟩

/-- `Event::new_raw`: leaves the symbolic `event_id` as `None`. -/
def Event.new_raw (raw : Nat) (data : List Nat) : Event :=
  ⟨raw, none, data⟩

/-- `Event::into_write`: `raw_event_id` as u32 BE, then the data bytes. -/
def Event.intoWrite (e : Event) : List Nat :=
  u32beBytes e.raw_event_id ++ e.data

/-- `Event::from_read`: read `raw_event_id` (u32 BE; fewer than 4 bytes is
an io error), attach `EventId::from_repr`, take the rest as data. -/
def Event.fromRead (bytes : List Nat) : Except CloudProtoError Event :=
  match bytes with
  | b3 :: b2 :: b1 :: b0 :: rest =>
    .ok ⟨beU32 b3 b2 b1 b0, EventId.fromRepr (beU32 b3 b2 b1 b0), rest⟩
  | _ => .error .IoErr

theorem eventIdCodes_lt (n : Nat) (hn : n ∈ eventIdCodes) : n < 2 ^ 32 := by
  have h : ∀ m ∈ eventIdCodes, m < 2 ^ 32 := by decide
  exact h n hn

/-- Claim C10: deserialising the serialisation of an event yields an equal
event exactly when its `event_id` equals `EventId::from_repr` of its
`raw_event_id`; in particular an event built by `new_raw` from a catalogued
id never round-trips to an equal value, since deserialisation attaches the
symbolic id while `new_raw` leaves it `None`. -/
theorem event_roundtrip_iff :
    (∀ e : Event, e.raw_event_id < 2 ^ 32 →
      (Event.fromRead (Event.intoWrite e) = .ok e ↔
        e.event_id = EventId.fromRepr e.raw_event_id)) ∧
    (∀ n data, n ∈ eventIdCodes →
      Event.fromRead (Event.intoWrite (Event.new_raw n data)) ≠
        .ok (Event.new_raw n data)) := by
  have key : ∀ r (id : Option EventId) d, r < 2 ^ 32 →
      Event.fromRead (Event.intoWrite ⟨r, id, d⟩) = .ok ⟨r, EventId.fromRepr r, d⟩ := by
    intro r id d hr
    simp only [Event.intoWrite, u32beBytes, List.cons_append, List.nil_append,
      Event.fromRead, beU32_u32beBytes, Nat.mod_eq_of_lt hr]
  constructor
  · rintro ⟨r, id, d⟩ hraw
    rw [key r id d hraw]
    simp [Event.mk.injEq, eq_comm]
  · intro n data hn
    show Event.fromRead (Event.intoWrite ⟨n, none, data⟩) ≠ .ok ⟨n, none, data⟩
    rw [key n none data (eventIdCodes_lt n hn)]
    simp [EventId.fromRepr, hn]

/-- Claim C10 witness: the uncatalogued id 0xAABBCCDD (the repository
round-trip test value) does round-trip, and `new_raw` of the catalogued
`AgentOnline` id 0x338000AC does not. -/
theorem event_roundtrip_iff_witness :
    (Event.fromRead (Event.intoWrite ⟨0xAABBCCDD, none, []⟩) =
      .ok ⟨0xAABBCCDD, none, []⟩) ∧
    Event.fromRead (Event.intoWrite (Event.new_raw 0x338000AC [])) ≠
      .ok (Event.new_raw 0x338000AC []) := by
  constructor
  · exact (event_roundtrip_iff.1 ⟨0xAABBCCDD, none, []⟩ (by decide)).mpr (by decide)
  · exact event_roundtrip_iff.2 0x338000AC [] (by decide)

/-! ## CRC32 (the `crc32fast` crate: IEEE, reflected, poly 0xEDB88320,
init 0xFFFFFFFF, final xor 0xFFFFFFFF) -/

/-- One reflected CRC32 bit-shift round, applied `k` times. -/
def crc32Bits : Nat → Nat → Nat
  | 0, crc => crc
  | k + 1, crc =>
    crc32Bits k (if crc % 2 = 1 then Nat.xor (crc / 2) 0xEDB88320 else crc / 2)

/-- `crc32fast::hash`. -/
def crc32 (data : List Nat) : Nat :=
  Nat.xor (data.foldl (fun crc b => crc32Bits 8 (Nat.xor crc (b % 256))) 0xFFFFFFFF)
    0xFFFFFFFF

/-! ## SHA-256 (the `sha2` crate), over byte lists -/

/-- Iterate a function `n` times (structurally, so that the kernel can
evaluate hashes inside `decide`). -/
def iterN {α : Type} (f : α → α) : Nat → α → α
  | 0, a => a
  | k + 1, a => iterN f k (f a)

/-- 32-bit right rotation. -/
def rotr32 (n x : Nat) : Nat :=
  (x >>> n ||| x <<< (32 - n)) % 2 ^ 32

/-- SHA-256 choice function. -/
def shaCh (e f g : Nat) : Nat :=
  Nat.xor (e &&& f) (Nat.xor e 0xFFFFFFFF &&& g)

/-- SHA-256 majority function. -/
def shaMaj (a b c : Nat) : Nat :=
  Nat.xor (a &&& b) (Nat.xor (a &&& c) (b &&& c))

/-- SHA-256 big sigma 0. -/
def bigSigma0 (x : Nat) : Nat := Nat.xor (rotr32 2 x) (Nat.xor (rotr32 13 x) (rotr32 22 x))

/-- SHA-256 big sigma 1. -/
def bigSigma1 (x : Nat) : Nat := Nat.xor (rotr32 6 x) (Nat.xor (rotr32 11 x) (rotr32 25 x))

/-- SHA-256 small sigma 0. -/
def smallSigma0 (x : Nat) : Nat := Nat.xor (rotr32 7 x) (Nat.xor (rotr32 18 x) (x >>> 3))

/-- SHA-256 small sigma 1. -/
def smallSigma1 (x : Nat) : Nat := Nat.xor (rotr32 17 x) (Nat.xor (rotr32 19 x) (x >>> 10))

/-- The 64 SHA-256 round constants. -/
def sha256K : List Nat :=
  [1116352408, 1899447441, 3049323471, 3921009573, 961987163, 1508970993,
   2453635748, 2870763221, 3624381080, 310598401, 607225278, 1426881987,
   1925078388, 2162078206, 2614888103, 3248222580, 3835390401, 4022224774,
   264347078, 604807628, 770255983, 1249150122, 1555081692, 1996064986,
   2554220882, 2821834349, 2952996808, 3210313671, 3336571891, 3584528711,
   113926993, 338241895, 666307205, 773529912, 1294757372, 1396182291,
   1695183700, 1986661051, 2177026350, 2456956037, 2730485921, 2820302411,
   3259730800, 3345764771, 3516065817, 3600352804, 4094571909, 275423344,
   430227734, 506948616, 659060556, 883997877, 958139571, 1322822218,
   1537002063, 1747873779, 1955562222, 2024104815, 2227730452, 2361852424,
   2428436474, 2756734187, 3204031479, 3329325298]

/-- The SHA-256 initial state. -/
def sha256H0 : List Nat :=
  [1779033703, 3144134277, 1013904242, 2773480762,
   1359893119, 2600822924, 528734635, 1541459225]

/-- Append the next word of the SHA-256 message schedule. -/
def sha256ExtendStep (w : List Nat) : List Nat :=
  let n := w.length
  w ++ [(smallSigma1 (w.getD (n - 2) 0) + w.getD (n - 7) 0 +
         smallSigma0 (w.getD (n - 15) 0) + w.getD (n - 16) 0) % 2 ^ 32]

/-- One SHA-256 compression round on the 8-word state. -/
def sha256Round (st : List Nat) (kw : Nat × Nat) : List Nat :=
  let a := st.getD 0 0
  let b := st.getD 1 0
  let c := st.getD 2 0
  let d := st.getD 3 0
  let e := st.getD 4 0
  let f := st.getD 5 0
  let g := st.getD 6 0
  let h := st.getD 7 0
  let t1 := (h + bigSigma1 e + shaCh e f g + kw.1 + kw.2) % 2 ^ 32
  let t2 := (bigSigma0 a + shaMaj a b c) % 2 ^ 32
  [(t1 + t2) % 2 ^ 32, a, b, c, (d + t1) % 2 ^ 32, e, f, g]

/-- Compress one 64-byte block into the state. -/
def sha256Block (h : List Nat) (block : List Nat) : List Nat :=
  let w16 := (List.range 16).map fun i => readU32 block (4 * i)
  let w := iterN sha256ExtendStep 48 w16
  let st := (sha256K.zip w).foldl sha256Round h
  (h.zip st).map fun p => (p.1 + p.2) % 2 ^ 32

/-- SHA-256 padding: 0x80, zeros to 56 mod 64, 8-byte big-endian bit length. -/
def sha256Pad (msg : List Nat) : List Nat :=
  msg ++ [0x80] ++ List.replicate ((119 - msg.length % 64) % 64) 0 ++
    u64beBytes (8 * msg.length)

/-- Fold the compression over consecutive 64-byte blocks (fuel-indexed so
the recursion is structural; the fuel is instantiated with the padded
length, which bounds the block count). -/
def sha256Blocks : Nat → List Nat → List Nat → List Nat
  | _, h, [] => h
  | 0, h, _ :: _ => h
  | fuel + 1, h, x :: rest =>
    sha256Blocks fuel (sha256Block h ((x :: rest).take 64)) ((x :: rest).drop 64)

/-- SHA-256 of a byte list, as the 32-byte digest. -/
def sha256 (msg : List Nat) : List Nat :=
  let padded := sha256Pad msg
  ((sha256Blocks padded.length sha256H0 padded).map u32beBytes).flatten

/-! ## LFO errors and the file header
(src/services/lfo.rs, src/services/lfo/file_header.rs) -/

/-- The distinct `String` reasons produced while parsing an LFO ReplyOk
payload, one constructor per `format!`/literal site of the source. -/
inductive LfoParseReason where
  | HeaderTooSmall
  | StartPastEnd (start stop : Nat)
  | NonZeroStart
  | SizeMismatch (expected actual : Nat)
  | BadCrc (expected computed : Nat)
  | UnsupportedCompression (fmt : Nat)
  | WrongDataLen (got expected : Nat)
deriving DecidableEq

/-- `LfoError` from src/services/lfo.rs (string payloads carried as byte
lists or as `LfoParseReason`; the transparent `CloudProto` variant keeps
its `CloudProtoError`). -/
inductive LfoError where
  | NotFound
  | InvalidRequest
  | ServerError (msgBytes : List Nat)
  | BadReplyKind (kind : Nat)
  | ReplyParseError (reason : LfoParseReason) (rawPayload : List Nat)
  | InvalidFinalSize (expected actual : Nat)
  | InvalidHash (expected actual : List Nat)
  | CloudProto (e : CloudProtoError)
deriving DecidableEq

/-- `LfoFileHeader` from src/services/lfo/file_header.rs. -/
structure LfoFileHeader where
  magic : Nat
  unk_cst1 : Nat
  comp_format : Nat
  payload_size : Nat
  data_hash : List Nat
  cur_payload_size : Nat
  cur_state : Nat
  unk : Nat
deriving DecidableEq

/-- `impl TryFrom<&[u8]> for LfoFileHeader`: length check, fixed fields,
offset checks, uncompressed size check (the `len_without_crc as u32` cast
appears as `% 2^32`), CRC32 check, then the header with `payload_size`
set to `chunk_end_off` and `data_hash` to header bytes 8..40. -/
def LfoFileHeader.tryFrom (lfo_payload : List Nat) : Except LfoParseReason LfoFileHeader :=
  if lfo_payload.length < 0x2A + 4 then .error .HeaderTooSmall
  else
    let header := lfo_payload.take 0x2A
    let payload_data := lfo_payload.drop 0x2A
    let chunk_start_off := readU32 header 0
    let chunk_end_off := readU32 header 4
    let pkt_unk_buf := (header.drop 8).take 32
    let comp_format := beU16 (byteAt header 40) (byteAt header 41)
    if chunk_end_off < chunk_start_off then
      .error (.StartPastEnd chunk_start_off chunk_end_off)
    else
      let len_without_crc := payload_data.length - 4
      if chunk_start_off ≠ 0 then .error .NonZeroStart
      else
        let chunk_size := chunk_end_off - chunk_start_off
        if comp_format = 0 ∧ chunk_size ≠ len_without_crc % 2 ^ 32 then
          .error (.SizeMismatch chunk_size (len_without_crc % 2 ^ 32))
        else
          let expected_crc := readU32 payload_data len_without_crc
          let crc := crc32 (payload_data.take len_without_crc)
          if crc ≠ expected_crc then .error (.BadCrc expected_crc crc)
          else
            .ok ⟨0x4C444852, 1, comp_format, chunk_end_off, pkt_unk_buf,
                 len_without_crc % 2 ^ 32, 5, 0⟩

/-! ## LFO response (src/services/lfo/response.rs)

Both compile-time features (`lfo-check-hash` and `lfo-compress-xz`) are
modelled as enabled.  The xz decoder of the external `xz2` crate is a
parameter `xz : List Nat → Option (List Nat)` giving the full decompressed
output of a compressed byte string (`none` for streams the decoder rejects);
a decoder stream over `data` is represented by the count of bytes emitted
so far (its `total_out`). -/

/-- `ResponseReadState`. -/
inductive ResponseReadState where
  | Direct (read_pos : Nat)
  | Compressed (total_out : Nat)
deriving DecidableEq

/-- `LfoResponse`.  `read_hasher` is the running SHA-256 state, represented
by the bytes absorbed since the last `finalize_reset`. -/
structure LfoResponse where
  raw_lfo_payload : List Nat
  header : LfoFileHeader
  lfo_data : List Nat
  read_state : ResponseReadState
  read_hasher : List Nat
deriving DecidableEq

/-- `LfoResponse::try_from_raw_lfo_payload`. -/
def LfoResponse.tryFromRawLfoPayload (raw : List Nat) : Except LfoError LfoResponse :=
  match LfoFileHeader.tryFrom raw with
  | .error e => .error (.ReplyParseError e raw)
  | .ok header =>
    let chunk_data := (raw.drop 0x2A).take (raw.length - 4 - 0x2A)
    if header.comp_format = 0 then
      .ok ⟨raw, header, chunk_data, .Direct 0, []⟩
    else if header.comp_format = 1 then
      .ok ⟨raw, header, chunk_data, .Compressed 0, []⟩
    else
      .error (.ReplyParseError (.UnsupportedCompression header.comp_format) raw)

/-- The bytes of the ASCII string compared against the ReplyFail message. -/
def internalErrorBytes : List Nat :=
  [0x69, 0x6E, 0x74, 0x65, 0x72, 0x6E, 0x61, 0x6C, 0x20, 0x65, 0x72, 0x72, 0x6F, 0x72]

/-- `impl TryFrom<CloudProtoPacket> for LfoResponse`.  `String::from_utf8_lossy`
of the message bytes equals the pure-ASCII string exactly when the bytes are
that ASCII byte sequence, so the comparison is byte equality; `ServerError`
carries the message bytes. -/
def LfoResponse.tryFromPacket (reply : CloudProtoPacket) : Except LfoError LfoResponse :=
  if reply.kind = LfoPacketKind.ReplyFail.toU8 ∧ 8 ≤ reply.payload.length then
    let msg := reply.payload.drop 8
    if msg = internalErrorBytes then .error .NotFound
    else .error (.ServerError msg)
  else if reply.kind = LfoPacketKind.ReplyOk.toU8 then
    LfoResponse.tryFromRawLfoPayload reply.payload
  else .error (.BadReplyKind reply.kind)

/-- `LfoResponse::check_full_data_len` (the error carries an empty
`raw_payload`, `Default::default()` in the source). -/
def LfoResponse.checkFullDataLen (r : LfoResponse) (data_len : Nat) : Except LfoError Unit :=
  if data_len ≠ r.header.payload_size then
    .error (.ReplyParseError (.WrongDataLen data_len r.header.payload_size) [])
  else .ok ()

/-- `LfoResponse::validate_full_data_hash` with `lfo-check-hash` enabled. -/
def LfoResponse.validateFullDataHash (r : LfoResponse) (d : List Nat) : Except LfoError Unit :=
  if r.header.data_hash ≠ sha256 d then
    .error (.InvalidHash r.header.data_hash (sha256 d))
  else .ok ()

/-- `LfoResponse::data`: eager read (decompressing the stored bytes afresh
in the compressed mode), then length and hash checks. -/
def LfoResponse.data (xz : List Nat → Option (List Nat)) (r : LfoResponse) :
    Except LfoError (List Nat) := do
  let full_data ← match r.read_state with
    | .Direct _ => Except.ok r.lfo_data
    | .Compressed _ =>
      match xz r.lfo_data with
      | some o => Except.ok o
      | none => Except.error (.CloudProto .IoErr)
  r.checkFullDataLen full_data.length
  r.validateFullDataHash full_data
  return full_data

/-- The full decoded byte sequence a response stands for: the stored bytes
directly, or the decompressed output in the compressed mode. -/
def LfoResponse.decodedData (xz : List Nat → Option (List Nat)) (r : LfoResponse) :
    Option (List Nat) :=
  match r.read_state with
  | .Direct _ => some r.lfo_data
  | .Compressed _ => xz r.lfo_data

/-- One `Read::read` call with a `bufLen`-byte buffer: returns the bytes
written into the buffer and the updated response.  Mirrors the source: the
running hash absorbs every delivered byte; the direct mode finalises and
checks the hash on the read that consumes the end of the slice; the
compressed mode fails with `InvalidFinalSize` if `total_out` exceeds the
advertised size and finalises the hash when it exactly reaches it. -/
def LfoResponse.readStep (xz : List Nat → Option (List Nat)) (r : LfoResponse)
    (bufLen : Nat) : Except LfoError (List Nat × LfoResponse) :=
  match r.read_state with
  | .Direct read_pos =>
    let remaining := r.lfo_data.drop read_pos
    let attempted_count := min bufLen remaining.length
    let count := attempted_count
    let emitted := remaining.take count
    let hasher := r.read_hasher ++ emitted
    if count = remaining.length ∧ count ≠ 0 then
      if r.header.data_hash ≠ sha256 hasher then
        .error (.InvalidHash r.header.data_hash (sha256 hasher))
      else
        .ok (emitted, {r with read_state := .Direct (read_pos + count), read_hasher := []})
    else
      .ok (emitted, {r with read_state := .Direct (read_pos + count), read_hasher := hasher})
  | .Compressed total_out =>
    match xz r.lfo_data with
    | none => .error (.CloudProto .IoErr)
    | some o =>
      let remaining := o.drop total_out
      let count := min bufLen remaining.length
      let emitted := remaining.take count
      let total_out2 := total_out + count
      let hasher := r.read_hasher ++ emitted
      if r.header.payload_size < total_out2 then
        .error (.InvalidFinalSize r.header.payload_size total_out2)
      else if count ≠ 0 ∧ total_out2 = r.header.payload_size then
        if r.header.data_hash ≠ sha256 hasher then
          .error (.InvalidHash r.header.data_hash (sha256 hasher))
        else
          .ok (emitted, {r with read_state := .Compressed total_out2, read_hasher := []})
      else
        .ok (emitted, {r with read_state := .Compressed total_out2, read_hasher := hasher})

/-- `Read::read_to_end` on a response: repeatedly call `readStep` with the
next (positive) chunk size until a read returns no bytes, concatenating the
output.  `chunks` is the arbitrary schedule of buffer sizes the caller
happens to offer; the fuel only needs to exceed the total number of bytes
delivered. -/
def LfoResponse.drainAux (xz : List Nat → Option (List Nat)) :
    Nat → LfoResponse → List Nat → Except LfoError (List Nat)
  | 0, _, _ => .ok []
  | fuel + 1, r, chunks =>
    match r.readStep xz (max 1 (chunks.headD 8192)) with
    | .error e => .error e
    | .ok (emitted, r2) =>
      if emitted = [] then .ok []
      else
        match LfoResponse.drainAux xz fuel r2 chunks.tail with
        | .error e => .error e
        | .ok rest2 => .ok (emitted ++ rest2)

theorem byteAt_take (l : List Nat) (n i : Nat) (h : i < n) :
    byteAt (l.take n) i = byteAt l i := by
  simp [byteAt, List.getD, List.getElem?_take, h]

theorem readU32_take (l : List Nat) (n i : Nat) (h : i + 3 < n) :
    readU32 (l.take n) i = readU32 l i := by
  unfold readU32
  rw [byteAt_take l n i (by omega), byteAt_take l n (i + 1) (by omega),
    byteAt_take l n (i + 2) (by omega), byteAt_take l n (i + 3) (by omega)]

/-- Normal form of `LfoFileHeader.tryFrom`, with all reads expressed on the
raw payload and the `as u32` truncation discharged by the length bound. -/
theorem tryFrom_spec (raw : List Nat) (hlen : raw.length < 2 ^ 32) :
    LfoFileHeader.tryFrom raw =
      if raw.length < 0x2E then .error .HeaderTooSmall
      else if readU32 raw 4 < readU32 raw 0 then
        .error (.StartPastEnd (readU32 raw 0) (readU32 raw 4))
      else if readU32 raw 0 ≠ 0 then .error .NonZeroStart
      else if beU16 (byteAt raw 40) (byteAt raw 41) = 0 ∧
          readU32 raw 4 ≠ raw.length - 0x2E then
        .error (.SizeMismatch (readU32 raw 4) (raw.length - 0x2E))
      else if crc32 ((raw.drop 0x2A).take (raw.length - 0x2E)) ≠
          readU32 (raw.drop 0x2A) (raw.length - 0x2E) then
        .error (.BadCrc (readU32 (raw.drop 0x2A) (raw.length - 0x2E))
          (crc32 ((raw.drop 0x2A).take (raw.length - 0x2E))))
      else
        .ok ⟨0x4C444852, 1, beU16 (byteAt raw 40) (byteAt raw 41), readU32 raw 4,
          (raw.drop 8).take 32, raw.length - 0x2E, 5, 0⟩ := by
  unfold LfoFileHeader.tryFrom
  by_cases hshort : raw.length < 0x2A + 4
  · simp [hshort]
  · rw [if_neg hshort, if_neg (by omega : ¬raw.length < 0x2E)]
    simp only [readU32_take raw 0x2A 0 (by omega), readU32_take raw 0x2A 4 (by omega),
      byteAt_take raw 0x2A 40 (by omega), byteAt_take raw 0x2A 41 (by omega),
      List.length_drop]
    have hsub : raw.length - 0x2A - 4 = raw.length - 0x2E := by omega
    rw [hsub]
    have hmod : (raw.length - 0x2E) % 2 ^ 32 = raw.length - 0x2E :=
      Nat.mod_eq_of_lt (by omega)
    rw [hmod]
    by_cases h2 : readU32 raw 4 < readU32 raw 0
    · simp [h2]
    · rw [if_neg h2, if_neg h2]
      by_cases h3 : readU32 raw 0 ≠ 0
      · simp [h3]
      · rw [if_neg h3, if_neg h3]
        push_neg at h3
        rw [h3, Nat.sub_zero]
        by_cases h4 : beU16 (byteAt raw 40) (byteAt raw 41) = 0 ∧
            readU32 raw 4 ≠ raw.length - 0x2E
        · simp [h4]
        · rw [if_neg h4, if_neg h4]
          by_cases h5 : crc32 ((raw.drop 0x2A).take (raw.length - 0x2E)) ≠
              readU32 (raw.drop 0x2A) (raw.length - 0x2E)
          · simp [h5]
          · rw [if_neg h5, if_neg h5]
            have hhash : ((raw.take 0x2A).drop 8).take 32 = (raw.drop 8).take 32 := by
              rw [List.drop_take, List.take_take]
              norm_num
            rw [hhash]

/-- Normal form of (take 8 of) the drop in `hhash` above, retained for the
C5 success clause. -/
theorem dataHash_bytes (raw : List Nat) :
    ((raw.take 0x2A).drop 8).take 32 = (raw.drop 8).take 32 := by
  rw [List.drop_take, List.take_take]
  norm_num

/-- The outcome is a `ReplyParseError` (of any reason). -/
def isReplyParseError : Except LfoError LfoResponse → Prop
  | .error (.ReplyParseError _ _) => True
  | _ => False

/-- Claim C5: building an `LfoResponse` from a ReplyOk payload fails with
`ReplyParseError` exactly when the payload is shorter than 0x2E bytes, or
`chunk_start_off > chunk_end_off`, or `chunk_start_off` is non-zero, or
(`comp_format = 0` and `chunk_end_off` differs from the payload length minus
the 0x2A-byte header minus the 4-byte CRC), or the CRC32 of the bytes
between the fixed header and the trailing 4 bytes differs from those 4
bytes read big-endian, or `comp_format` is neither 0 nor 1; otherwise it
succeeds with `payload_size = chunk_end_off` and `data_hash` equal to
header bytes 8..40.  The length bound is the `u32` wire-format bound on a
packet payload. -/
theorem lfo_reply_ok_validation (raw : List Nat) (hlen : raw.length < 2 ^ 32) :
    (isReplyParseError (LfoResponse.tryFromRawLfoPayload raw) ↔
      (raw.length < 0x2E ∨
       readU32 raw 4 < readU32 raw 0 ∨
       readU32 raw 0 ≠ 0 ∨
       (beU16 (byteAt raw 40) (byteAt raw 41) = 0 ∧
         readU32 raw 4 ≠ raw.length - 0x2E) ∨
       crc32 ((raw.drop 0x2A).take (raw.length - 0x2E)) ≠
         readU32 (raw.drop 0x2A) (raw.length - 0x2E) ∨
       (beU16 (byteAt raw 40) (byteAt raw 41) ≠ 0 ∧
         beU16 (byteAt raw 40) (byteAt raw 41) ≠ 1))) ∧
    (∀ r, LfoResponse.tryFromRawLfoPayload raw = .ok r →
      r.header.payload_size = readU32 raw 4 ∧
      r.header.data_hash = (raw.drop 8).take 32) := by
  unfold LfoResponse.tryFromRawLfoPayload
  rw [tryFrom_spec raw hlen]
  by_cases h1 : raw.length < 0x2E
  · simp [h1, isReplyParseError]
  · rw [if_neg h1]
    by_cases h2 : readU32 raw 4 < readU32 raw 0
    · simp [h1, h2, isReplyParseError]
    · rw [if_neg h2]
      by_cases h3 : readU32 raw 0 ≠ 0
      · simp [h1, h2, h3, isReplyParseError]
      · rw [if_neg h3]
        by_cases h4 : beU16 (byteAt raw 40) (byteAt raw 41) = 0 ∧
            readU32 raw 4 ≠ raw.length - 0x2E
        · simp [h1, h2, h3, h4, isReplyParseError]
        · rw [if_neg h4]
          by_cases h5 : crc32 ((raw.drop 0x2A).take (raw.length - 0x2E)) ≠
              readU32 (raw.drop 0x2A) (raw.length - 0x2E)
          · simp [h1, h2, h3, h4, h5, isReplyParseError]
          · rw [if_neg h5]
            by_cases hf0 : beU16 (byteAt raw 40) (byteAt raw 41) = 0
            · simp [h1, h2, h3, h4, h5, hf0, isReplyParseError]
              omega
            · by_cases hf1 : beU16 (byteAt raw 40) (byteAt raw 41) = 1
              · simp [h1, h2, h3, h4, h5, hf0, hf1, isReplyParseError]
              · simp [h1, h2, h3, h4, h5, hf0, hf1, isReplyParseError]

/-- Claim C5 witness: 46 zero bytes form a valid minimal ReplyOk payload
(empty file, CRC 0 over no bytes) and parse successfully, while 45 zero
bytes fail the length check. -/
theorem lfo_reply_ok_validation_witness :
    ¬isReplyParseError (LfoResponse.tryFromRawLfoPayload (List.replicate 46 0)) ∧
    isReplyParseError (LfoResponse.tryFromRawLfoPayload (List.replicate 45 0)) := by
  constructor
  · rw [(lfo_reply_ok_validation (List.replicate 46 0) (by decide)).1]
    decide
  · rw [(lfo_reply_ok_validation (List.replicate 45 0) (by decide)).1]
    decide

/-- Claim C6: a ReplyFail packet with at least 8 payload bytes maps to
`NotFound` exactly when bytes 8.. are the ASCII bytes of the string compared
in the source, and to `ServerError` with those bytes otherwise; a ReplyFail
packet with fewer than 8 payload bytes, and any packet that is neither
ReplyOk nor ReplyFail, fail with `BadReplyKind` of the kind byte. -/
theorem lfo_reply_fail_classification (pkt : CloudProtoPacket) :
    (pkt.kind = 3 → 8 ≤ pkt.payload.length →
      LfoResponse.tryFromPacket pkt =
        (if pkt.payload.drop 8 = internalErrorBytes then .error .NotFound
         else .error (.ServerError (pkt.payload.drop 8)))) ∧
    (pkt.kind = 3 → pkt.payload.length < 8 →
      LfoResponse.tryFromPacket pkt = .error (.BadReplyKind pkt.kind)) ∧
    (pkt.kind ≠ 2 → pkt.kind ≠ 3 →
      LfoResponse.tryFromPacket pkt = .error (.BadReplyKind pkt.kind)) := by
  refine ⟨fun hk hl => ?_, fun hk hl => ?_, fun hk2 hk3 => ?_⟩
  · simp [LfoResponse.tryFromPacket, LfoPacketKind.toU8, hk, hl]
  · simp [LfoResponse.tryFromPacket, LfoPacketKind.toU8, hk,
      (by omega : ¬8 ≤ pkt.payload.length)]
    exact fun h2 => absurd h2 (by omega)
  · simp [LfoResponse.tryFromPacket, LfoPacketKind.toU8, hk2, hk3]

/-- Claim C6 witness: concrete packets for each classification branch. -/
theorem lfo_reply_fail_classification_witness :
    (LfoResponse.tryFromPacket
      ⟨.LFO, 3, .Normal, List.replicate 8 0 ++ internalErrorBytes⟩ =
        .error .NotFound) ∧
    (LfoResponse.tryFromPacket
      ⟨.LFO, 3, .Normal, List.replicate 8 0 ++ [0x6F, 0x6B]⟩ =
        .error (.ServerError [0x6F, 0x6B])) ∧
    (LfoResponse.tryFromPacket ⟨.LFO, 3, .Normal, [1, 2, 3]⟩ =
      .error (.BadReplyKind 3)) ∧
    (LfoResponse.tryFromPacket ⟨.LFO, 9, .Normal, []⟩ =
      .error (.BadReplyKind 9)) := by
  refine ⟨?_, ?_, ?_, ?_⟩
  · rw [(lfo_reply_fail_classification
      ⟨.LFO, 3, .Normal, List.replicate 8 0 ++ internalErrorBytes⟩).1 rfl (by decide)]
    decide
  · rw [(lfo_reply_fail_classification
      ⟨.LFO, 3, .Normal, List.replicate 8 0 ++ [0x6F, 0x6B]⟩).1 rfl (by decide)]
    decide
  · exact (lfo_reply_fail_classification ⟨.LFO, 3, .Normal, [1, 2, 3]⟩).2.1 rfl (by decide)
  · exact (lfo_reply_fail_classification ⟨.LFO, 9, .Normal, []⟩).2.2 (by decide) (by decide)

/-- Draining a direct-mode response from cursor `pos` returns the rest of
the slice: the running hash check at the end passes because the hash has
absorbed exactly the bytes before the cursor. -/
theorem drainAux_direct (xz : List Nat → Option (List Nat))
    (raw dat : List Nat) (hdr : LfoFileHeader)
    (hhash : hdr.data_hash = sha256 dat) :
    ∀ (fuel : Nat) (pos : Nat) (hsh : List Nat) (chunks : List Nat),
      pos ≤ dat.length →
      (hsh = dat.take pos ∨ pos = dat.length) →
      dat.length - pos < fuel →
      LfoResponse.drainAux xz fuel ⟨raw, hdr, dat, .Direct pos, hsh⟩ chunks =
        .ok (dat.drop pos) := by
  intro fuel
  induction fuel with
  | zero => intro pos hsh chunks _ _ hfuel; omega
  | succ fuel ih =>
    intro pos hsh chunks hpos hinv hfuel
    rcases Nat.eq_or_lt_of_le hpos with heq | hlt
    · have hrem : dat.drop pos = [] := by
        rw [List.drop_eq_nil_iff]
        omega
      simp [LfoResponse.drainAux, LfoResponse.readStep, hrem]
    · have hhsh : hsh = dat.take pos := by
        rcases hinv with h | h
        · exact h
        · omega
      subst hhsh
      have hdlen : (dat.drop pos).length = dat.length - pos := List.length_drop ..
      have hc1 : 1 ≤ max 1 (chunks.headD 8192) := le_max_left _ _
      rcases Nat.lt_or_ge (dat.length - pos) (max 1 (chunks.headD 8192) + 1)
        with hfin | hpart
      · -- the read consumes all remaining bytes: hash finalised and checked
        have hstep : LfoResponse.readStep xz ⟨raw, hdr, dat, .Direct pos, dat.take pos⟩
            (max 1 (chunks.headD 8192)) =
            .ok (dat.drop pos, ⟨raw, hdr, dat, .Direct dat.length, []⟩) := by
          have hcount : min (max 1 (chunks.headD 8192)) (dat.drop pos).length =
              (dat.drop pos).length := by omega
          have hemit : (dat.drop pos).take (dat.drop pos).length = dat.drop pos :=
            List.take_length ..
          have hz : pos + (dat.drop pos).length = dat.length := by omega
          simp only [LfoResponse.readStep, hcount, hemit, hz]
          rw [if_pos (⟨by trivial, by omega⟩ : _ ∧ _)]
          rw [if_neg (show ¬hdr.data_hash ≠
            sha256 (dat.take pos ++ dat.drop pos) from by
              rw [List.take_append_drop, hhash]
              exact fun h => h rfl)]
        have hne : ¬dat.drop pos = [] := by
          intro hnil
          rw [List.drop_eq_nil_iff] at hnil
          omega
        simp only [LfoResponse.drainAux, hstep]
        rw [if_neg hne]
        rw [ih dat.length [] chunks.tail (le_refl _) (Or.inr rfl) (by omega)]
        simp
      · -- partial read: cursor advances, running hash extends
        have hstep : LfoResponse.readStep xz ⟨raw, hdr, dat, .Direct pos, dat.take pos⟩
            (max 1 (chunks.headD 8192)) =
            .ok ((dat.drop pos).take (max 1 (chunks.headD 8192)),
              ⟨raw, hdr, dat, .Direct (pos + max 1 (chunks.headD 8192)),
                dat.take (pos + max 1 (chunks.headD 8192))⟩) := by
          have hcount : min (max 1 (chunks.headD 8192)) (dat.drop pos).length =
              max 1 (chunks.headD 8192) := by omega
          have htk : dat.take pos ++ (dat.drop pos).take (max 1 (chunks.headD 8192)) =
              dat.take (pos + max 1 (chunks.headD 8192)) := (List.take_add ..).symm
          simp only [LfoResponse.readStep, hcount, htk]
          rw [if_neg (fun h => absurd h.1 (by omega))]
        have hne : ¬(dat.drop pos).take (max 1 (chunks.headD 8192)) = [] := by
          intro hnil
          have := congrArg List.length hnil
          simp at this
          omega
        simp only [LfoResponse.drainAux, hstep]
        rw [if_neg hne]
        rw [ih (pos + max 1 (chunks.headD 8192)) _ chunks.tail (by omega)
          (Or.inl rfl) (by omega)]
        have hjoin : (dat.drop pos).take (max 1 (chunks.headD 8192)) ++
            dat.drop (pos + max 1 (chunks.headD 8192)) = dat.drop pos := by
          rw [show dat.drop (pos + max 1 (chunks.headD 8192)) =
            (dat.drop pos).drop (max 1 (chunks.headD 8192)) from
              (List.drop_drop ..).symm]
          exact List.take_append_drop ..
        simp only [hjoin]

/-- Draining a compressed-mode response whose decoder output is `o`, from
`total_out = pos`, returns the rest of `o`: the output never exceeds the
advertised size (equal to `o.length`), and the hash is finalised exactly
when the output reaches it. -/
theorem drainAux_compressed (xz : List Nat → Option (List Nat))
    (raw dat o : List Nat) (hdr : LfoFileHeader)
    (hxz : xz dat = some o)
    (hhash : hdr.data_hash = sha256 o)
    (hsize : hdr.payload_size = o.length) :
    ∀ (fuel : Nat) (pos : Nat) (hsh : List Nat) (chunks : List Nat),
      pos ≤ o.length →
      (hsh = o.take pos ∨ pos = o.length) →
      o.length - pos < fuel →
      LfoResponse.drainAux xz fuel ⟨raw, hdr, dat, .Compressed pos, hsh⟩ chunks =
        .ok (o.drop pos) := by
  intro fuel
  induction fuel with
  | zero => intro pos hsh chunks _ _ hfuel; omega
  | succ fuel ih =>
    intro pos hsh chunks hpos hinv hfuel
    rcases Nat.eq_or_lt_of_le hpos with heq | hlt
    · have hrem : o.drop pos = [] := by
        rw [List.drop_eq_nil_iff]
        omega
      simp [LfoResponse.drainAux, LfoResponse.readStep, hxz, hrem, hsize, heq]
    · have hhsh : hsh = o.take pos := by
        rcases hinv with h | h
        · exact h
        · omega
      subst hhsh
      have hdlen : (o.drop pos).length = o.length - pos := List.length_drop ..
      have hc1 : 1 ≤ max 1 (chunks.headD 8192) := le_max_left _ _
      rcases Nat.lt_or_ge (o.length - pos) (max 1 (chunks.headD 8192) + 1)
        with hfin | hpart
      · -- the read emits the last decoder bytes: hash finalised and checked
        have hstep : LfoResponse.readStep xz ⟨raw, hdr, dat, .Compressed pos, o.take pos⟩
            (max 1 (chunks.headD 8192)) =
            .ok (o.drop pos, ⟨raw, hdr, dat, .Compressed o.length, []⟩) := by
          have hcount : min (max 1 (chunks.headD 8192)) (o.drop pos).length =
              (o.drop pos).length := by omega
          have hemit : (o.drop pos).take (o.drop pos).length = o.drop pos :=
            List.take_length ..
          have hz : pos + (o.drop pos).length = o.length := by omega
          simp only [LfoResponse.readStep, hxz, hcount, hemit, hz]
          rw [if_neg (by omega)]
          rw [if_pos (⟨by omega, hsize.symm⟩ : _ ∧ _)]
          rw [if_neg (show ¬hdr.data_hash ≠
            sha256 (o.take pos ++ o.drop pos) from by
              rw [List.take_append_drop, hhash]
              exact fun h => h rfl)]
        have hne : ¬o.drop pos = [] := by
          intro hnil
          rw [List.drop_eq_nil_iff] at hnil
          omega
        simp only [LfoResponse.drainAux, hstep]
        rw [if_neg hne]
        rw [ih o.length [] chunks.tail (le_refl _) (Or.inr rfl) (by omega)]
        simp
      · -- partial read: total_out advances, running hash extends
        have hstep : LfoResponse.readStep xz ⟨raw, hdr, dat, .Compressed pos, o.take pos⟩
            (max 1 (chunks.headD 8192)) =
            .ok ((o.drop pos).take (max 1 (chunks.headD 8192)),
              ⟨raw, hdr, dat, .Compressed (pos + max 1 (chunks.headD 8192)),
                o.take (pos + max 1 (chunks.headD 8192))⟩) := by
          have hcount : min (max 1 (chunks.headD 8192)) (o.drop pos).length =
              max 1 (chunks.headD 8192) := by omega
          have htk : o.take pos ++ (o.drop pos).take (max 1 (chunks.headD 8192)) =
              o.take (pos + max 1 (chunks.headD 8192)) := (List.take_add ..).symm
          simp only [LfoResponse.readStep, hxz, hcount, htk]
          rw [if_neg (by omega)]
          rw [if_neg (fun h => absurd h.2 (by omega))]
        have hne : ¬(o.drop pos).take (max 1 (chunks.headD 8192)) = [] := by
          intro hnil
          have := congrArg List.length hnil
          simp at this
          omega
        simp only [LfoResponse.drainAux, hstep]
        rw [if_neg hne]
        rw [ih (pos + max 1 (chunks.headD 8192)) _ chunks.tail (by omega)
          (Or.inl rfl) (by omega)]
        have hjoin : (o.drop pos).take (max 1 (chunks.headD 8192)) ++
            o.drop (pos + max 1 (chunks.headD 8192)) = o.drop pos := by
          rw [show o.drop (pos + max 1 (chunks.headD 8192)) =
            (o.drop pos).drop (max 1 (chunks.headD 8192)) from
              (List.drop_drop ..).symm]
          exact List.take_append_drop ..
        simp only [hjoin]

/-- Claim C4, amended: for a ReplyOk payload accepted by construction whose
decoded data (the stored bytes, or the decompressed output) has the
advertised SHA-256 **and the advertised length `chunk_end_off`** (the extra
hypothesis the counterexample forces; it holds automatically in the
uncompressed mode), the eager `data()` and reading the response to
exhaustion through `Read` under any schedule of buffer sizes both succeed
and return that same decoded byte sequence. -/
theorem lfo_data_read_equiv (xz : List Nat → Option (List Nat))
    (raw : List Nat) (r : LfoResponse) (o : List Nat)
    (hc : LfoResponse.tryFromRawLfoPayload raw = .ok r)
    (ho : r.decodedData xz = some o)
    (hhash : sha256 o = r.header.data_hash)
    (hlen : o.length = r.header.payload_size) :
    r.data xz = .ok o ∧
    (∀ chunks fuel, o.length < fuel →
      LfoResponse.drainAux xz fuel r chunks = .ok o) := by
  unfold LfoResponse.tryFromRawLfoPayload at hc
  split at hc
  · exact absurd hc (by simp)
  · next hdr heq =>
    split at hc
    · next hf0 =>
      rw [Except.ok.injEq] at hc
      subst hc
      simp only [LfoResponse.decodedData, Option.some.injEq] at ho
      subst ho
      simp only [LfoResponse.header] at hhash hlen
      constructor
      · simp [LfoResponse.data, LfoResponse.checkFullDataLen,
          LfoResponse.validateFullDataHash, Except.instMonad, Except.bind,
          Except.map, Except.pure, hlen, hhash]
      · intro chunks fuel hfuel
        have h := drainAux_direct xz raw _ hdr hhash.symm fuel 0 [] chunks
          (Nat.zero_le _) (Or.inl (List.take_zero ..).symm) (by omega)
        rw [List.drop_zero] at h
        exact h
    · split at hc
      · next hf1 =>
        rw [Except.ok.injEq] at hc
        subst hc
        simp only [LfoResponse.decodedData] at ho
        simp only [LfoResponse.header] at hhash hlen
        constructor
        · simp [LfoResponse.data, ho, LfoResponse.checkFullDataLen,
            LfoResponse.validateFullDataHash, Except.instMonad, Except.bind,
            Except.map, Except.pure, hlen, hhash]
        · intro chunks fuel hfuel
          have h := drainAux_compressed xz raw _ o hdr ho hhash.symm hlen.symm
            fuel 0 [] chunks (Nat.zero_le _) (Or.inl (List.take_zero ..).symm)
            (by omega)
          rw [List.drop_zero] at h
          exact h
      · exact absurd hc (by simp)

/-- A decoder behaviour of the real xz decoder: the (32-byte) empty xz
stream decompresses to the empty byte string, and this stub returns that
output for its input. -/
def xzStubEmpty : List Nat → Option (List Nat) := fun _ => some []

/-- A valid uncompressed ReplyOk payload for the 5-byte file 1,2,3,4,5:
`chunk_start_off = 0`, `chunk_end_off = 5`, correct SHA-256 and CRC32. -/
def witPayload : List Nat :=
  u32beBytes 0 ++ u32beBytes 5 ++ sha256 [1, 2, 3, 4, 5] ++ u16beBytes 0 ++
    [1, 2, 3, 4, 5] ++ u32beBytes (crc32 [1, 2, 3, 4, 5])

/-- The response `witPayload` parses to. -/
def witResponse : LfoResponse :=
  ⟨witPayload, ⟨0x4C444852, 1, 0, 5, sha256 [1, 2, 3, 4, 5], 5, 5, 0⟩,
    [1, 2, 3, 4, 5], .Direct 0, []⟩

set_option maxRecDepth 200000 in
/-- Claim C4 witness: the concrete uncompressed response for the file
1,2,3,4,5 — `data()` and a full streaming read (2-byte then default-size
buffers) both return the file without error. -/
theorem lfo_data_read_equiv_witness :
    LfoResponse.tryFromRawLfoPayload witPayload = .ok witResponse ∧
    witResponse.data xzStubEmpty = .ok [1, 2, 3, 4, 5] ∧
    LfoResponse.drainAux xzStubEmpty 6 witResponse [2] = .ok [1, 2, 3, 4, 5] := by
  have h := lfo_data_read_equiv xzStubEmpty witPayload witResponse [1, 2, 3, 4, 5]
    (by decide) (by decide) (by decide) (by decide)
  exact ⟨by decide, h.1, h.2 [2] 6 (by decide)⟩

/-- A ReplyOk payload whose header is valid (CRC correct, `comp_format = 1`)
but advertises `chunk_end_off = 1` while its compressed body is the empty
xz stream, whose decompressed output (the empty string) hashes to the
advertised `data_hash`. -/
def cexPayload : List Nat :=
  u32beBytes 0 ++ u32beBytes 1 ++ sha256 [] ++ u16beBytes 1 ++ u32beBytes 0

/-- The response `cexPayload` parses to. -/
def cexResponse : LfoResponse :=
  ⟨cexPayload, ⟨0x4C444852, 1, 1, 1, sha256 [], 0, 5, 0⟩, [], .Compressed 0, []⟩

set_option maxRecDepth 200000 in
/-- Claim C4 counterexample: this response satisfies every hypothesis of the
claim (accepted construction, correct CRC, decoded data whose SHA-256
matches `data_hash`, `comp_format ∈ {0, 1}`), yet `data()` fails with a
length error because the decompressed output is shorter than
`chunk_end_off`, while the streaming read completes without error — so the
two APIs do not both "complete without error" with equal output as the
claim states. -/
theorem lfo_data_read_equiv_cex :
    LfoResponse.tryFromRawLfoPayload cexPayload = .ok cexResponse ∧
    cexResponse.decodedData xzStubEmpty = some [] ∧
    sha256 [] = cexResponse.header.data_hash ∧
    cexResponse.header.comp_format = 1 ∧
    cexResponse.data xzStubEmpty =
      .error (.ReplyParseError (.WrongDataLen 0 1) []) ∧
    LfoResponse.drainAux xzStubEmpty 2 cexResponse [] = .ok [] := by
  exact ⟨by decide, by decide, by decide, by decide, by decide, by decide⟩

/-! ## The TS event socket (src/services/ts/socket.rs)

The underlying `CloudProtoSocket` io is modelled by its observable
behaviour at the suspension points of `TsEventSocket`:

* the read half is a schedule `rx` of poll results, consumed from the
  front — a decoded packet, a pending poll, or an error item; the end of
  the list is the end of the stream (`Ready(None)`);
* the write half records every packet handed to `start_send` in `txSent`,
  and `txSched` schedules the results of the successive
  `poll_ready`/`start_send`/`poll_flush` calls (`wok`, `wpend` = `Pending`,
  `werr` = io error; an exhausted schedule answers `wok`; `start_send`
  itself cannot suspend, so a scheduled `wpend` there acts as `wok`).
-/

/-- One poll result of the inbound framed stream. -/
inductive RxItem where
  | pkt (p : CloudProtoPacket)
  | rxPending
  | rxErr
deriving DecidableEq

/-- One scheduled result of an outbound write-half call. -/
inductive WRes where
  | wok
  | wpend
  | werr
deriving DecidableEq

/-- The observable outcome of one `poll_next` call.  `panicOut` models a
failing `assert!`. -/
inductive PollOut where
  | pendingOut
  | item (e : Event)
  | errItem (e : CloudProtoError)
  | closedOut
  | panicOut
deriving DecidableEq

/-- `TsEventSocket` state: the io model plus the `next_txid` counter and
the two single-slot buffers. -/
structure TsEventSock where
  rx : List RxItem
  txSent : List CloudProtoPacket
  txSched : List WRes
  next_txid : Nat
  unacked_txid : Option Nat
  unacked_event : Option Event
deriving DecidableEq

/-- `TsEventSocket::new` (the state `connect` and `TsEventAcceptor::accept`
build their socket with): `next_txid = FIRST_TXID = 0x200`, both buffers
empty. -/
def TsEventSock.new (rx : List RxItem) (sched : List WRes) : TsEventSock :=
  ⟨rx, [], sched, 0x200, none, none⟩

/-- Pop the next scheduled write result (`wok` when exhausted). -/
def popW : List WRes → WRes × List WRes
  | [] => (.wok, [])
  | w :: rest => (w, rest)

/-- The Ack packet `poll_next` sends: magic TS, kind Ack, version Normal,
payload the txid in big-endian. -/
def mkAckPacket (txid : Nat) : CloudProtoPacket :=
  ⟨.TS, TsPacketKind.Ack.toU8, .Normal, u64beBytes txid⟩

/-- The Event packet `start_send` sends: magic TS, kind Event, version
Normal, payload txid (u64 BE), raw event id (u32 BE), data. -/
def mkEventPacket (txid : Nat) (ev : Event) : CloudProtoPacket :=
  ⟨.TS, TsPacketKind.Event.toU8, .Normal, u64beBytes txid ++ Event.intoWrite ev⟩

/-- The tail of the outer `poll_next` loop: take the buffered event, assert
the txid slot was cleared, and deliver (`return Ready(Some(Ok(ev)))`);
`none` means fall through to the receive loop. -/
def deliverPhase (s : TsEventSock) : TsEventSock × Option PollOut :=
  match s.unacked_event with
  | some ev =>
    if s.unacked_txid.isSome then ({s with unacked_event := none}, some .panicOut)
    else ({s with unacked_event := none}, some (.item ev))
  | none => (s, none)

/-- The head of the outer `poll_next` loop: if an un-acked txid is
buffered, assert the event slot is full, await `poll_ready`, `start_send`
the Ack, clear the txid, await `poll_flush`; then deliver any buffered
event. -/
def ackPhase (s : TsEventSock) : TsEventSock × Option PollOut :=
  match s.unacked_txid with
  | some txid =>
    if s.unacked_event.isNone then (s, some .panicOut)
    else
      match popW s.txSched with
      | (.wpend, sch) => ({s with txSched := sch}, some .pendingOut)
      | (.werr, sch) => ({s with txSched := sch}, some (.errItem .IoErr))
      | (.wok, sch) =>
        match popW sch with
        | (.werr, sch2) => ({s with txSched := sch2}, some (.errItem .IoErr))
        | (_, sch2) =>
          let s1 : TsEventSock :=
            {s with txSched := sch2,
                    txSent := s.txSent ++ [mkAckPacket txid],
                    unacked_txid := none}
          match popW s1.txSched with
          | (.wpend, sch3) => ({s1 with txSched := sch3}, some .pendingOut)
          | (.werr, sch3) => ({s1 with txSched := sch3}, some (.errItem .IoErr))
          | (.wok, sch3) => deliverPhase {s1 with txSched := sch3}
  | none => deliverPhase s

/-- The inner receive loop of `poll_next`: drive the inbound stream; ignore
Acks (logging only), warn-and-skip unknown kinds, reject short Event
payloads, buffer a decoded Event (asserting both slots empty) and jump
back to the ack phase; on an inbound `Pending`, drive a flush before
suspending.  The fuel is instantiated with the length of the remaining
inbound schedule, which bounds the iterations. -/
def recvPhase : TsEventSock → Nat → TsEventSock × PollOut
  | s, 0 => (s, .pendingOut)
  | s, fuel + 1 =>
    match s.rx with
    | [] => (s, .closedOut)
    | item :: rest =>
      let s0 := {s with rx := rest}
      match item with
      | .rxErr => (s0, .errItem .IoErr)
      | .rxPending =>
        match popW s0.txSched with
        | (.werr, sch) => ({s0 with txSched := sch}, .errItem .IoErr)
        | (_, sch) => ({s0 with txSched := sch}, .pendingOut)
      | .pkt p =>
        if p.kind = TsPacketKind.Ack.toU8 then recvPhase s0 fuel
        else if p.kind = TsPacketKind.Event.toU8 then
          if p.payload.length < 12 then
            (s0, .errItem (.PayloadTooShort p.payload.length 12))
          else
            match Event.fromRead (p.payload.drop 8) with
            | .error e => (s0, .errItem e)
            | .ok ev =>
              if s0.unacked_txid.isSome then (s0, .panicOut)
              else if s0.unacked_event.isSome then (s0, .panicOut)
              else
                let s1 := {s0 with unacked_txid := some (readU64 p.payload),
                                   unacked_event := some ev}
                match ackPhase s1 with
                | (s2, some out) => (s2, out)
                | (s2, none) => recvPhase s2 fuel
        else recvPhase s0 fuel

/-- `Stream::poll_next` on a `TsEventSocket`. -/
def TsEventSock.pollNext (s : TsEventSock) : TsEventSock × PollOut :=
  match ackPhase s with
  | (s1, some out) => (s1, out)
  | (s1, none) => recvPhase s1 s1.rx.length

/-- `Sink::start_send`: build the Event packet with the current
`next_txid`, bump the counter (u64 wrapping add), hand the packet to the
write half (`none` = the underlying `start_send` returned an error and the
packet was not enqueued). -/
def TsEventSock.startSend (s : TsEventSock) (ev : Event) : TsEventSock × Option Unit :=
  let pkt := mkEventPacket s.next_txid ev
  let s1 := {s with next_txid := (s.next_txid + 0x100) % 2 ^ 64}
  match popW s1.txSched with
  | (.werr, sch) => ({s1 with txSched := sch}, none)
  | (_, sch) => ({s1 with txSched := sch, txSent := s1.txSent ++ [pkt]}, some ())

/-- `poll_ready`/`poll_flush`/`poll_close`: delegate to the write half,
consuming the next scheduled result. -/
def TsEventSock.pollWrite (s : TsEventSock) : TsEventSock × WRes :=
  match popW s.txSched with
  | (w, sch) => ({s with txSched := sch}, w)

/-- Iterate `poll_next` and collect the outcomes. -/
def runPoll : TsEventSock → Nat → TsEventSock × List PollOut
  | s, 0 => (s, [])
  | s, k + 1 =>
    match s.pollNext with
    | (s1, out) =>
      match runPoll s1 k with
      | (s2, outs) => (s2, out :: outs)

/-- One call a user (or the environment) can make on the socket.  `cEnv`
models the environment between calls: more inbound data arriving or write
readiness changing. -/
inductive TsCall where
  | cPollNext
  | cStartSend (ev : Event)
  | cPollReady
  | cPollFlush
  | cPollClose
  | cEnv (rx : List RxItem) (sched : List WRes)

/-- The state after one call. -/
def stepCall (s : TsEventSock) : TsCall → TsEventSock
  | .cPollNext => s.pollNext.1
  | .cStartSend ev => (s.startSend ev).1
  | .cPollReady => s.pollWrite.1
  | .cPollFlush => s.pollWrite.1
  | .cPollClose => s.pollWrite.1
  | .cEnv rx sched => {s with rx := rx, txSched := sched}

/-- The state after a sequence of calls. -/
def runCalls (s : TsEventSock) (cs : List TsCall) : TsEventSock :=
  cs.foldl stepCall s

/-- The well-formed Event packets of an inbound schedule slice: kind Event
and payload at least 12 bytes, as their (txid, decoded event) pair. -/
def wfEventsOf (items : List RxItem) : List (Nat × Event) :=
  items.filterMap fun it =>
    match it with
    | .pkt p =>
      if p.kind = TsPacketKind.Event.toU8 ∧ 12 ≤ p.payload.length then
        match Event.fromRead (p.payload.drop 8) with
        | .ok ev => some (readU64 p.payload, ev)
        | .error _ => none
      else none
    | _ => none

/-- The events a list of poll outcomes delivered. -/
def itemsOut (outs : List PollOut) : List Event :=
  outs.filterMap fun o => match o with | .item e => some e | _ => none

/-- The events one optional poll outcome delivered. -/
def outsOf : Option PollOut → List Event
  | some (.item e) => [e]
  | _ => []

/-- Invariant of the two single-slot buffers: a buffered un-acked txid
always has its event buffered too. -/
def BufInv (s : TsEventSock) : Prop :=
  s.unacked_txid.isSome → s.unacked_event.isSome

/-- Run invariant tying a state reached by polling from `TsEventSock.new
rx0 sched` to the packets consumed and produced so far: the Acks handed
to the write half, followed by the possibly still-pending Ack, are exactly
the Acks of the well-formed Event packets consumed, in order and with
matching txids; and the events delivered to the caller (`d`), followed by
the possibly still-buffered event, are exactly the decoded events of those
same packets. -/
def RunInv (rx0 : List RxItem) (d : List Event) (s : TsEventSock) : Prop :=
  (∃ pre, rx0 = pre ++ s.rx ∧
    s.txSent ++ s.unacked_txid.toList.map mkAckPacket =
      (wfEventsOf pre).map (fun q => mkAckPacket q.1) ∧
    d ++ s.unacked_event.toList = (wfEventsOf pre).map Prod.snd) ∧
  BufInv s

theorem ackPhase_inv (s : TsEventSock) (h : BufInv s) :
    (ackPhase s).2 ≠ some .panicOut ∧ BufInv (ackPhase s).1 ∧
    ((ackPhase s).2 = none →
      (ackPhase s).1.unacked_txid = none ∧ (ackPhase s).1.unacked_event = none) := by
  cases hutx : s.unacked_txid with
  | none =>
    cases huev : s.unacked_event with
    | none => simp [ackPhase, deliverPhase, hutx, huev, BufInv]
    | some ev => simp [ackPhase, deliverPhase, hutx, huev, BufInv]
  | some txid =>
    obtain ⟨ev, hev⟩ := Option.isSome_iff_exists.mp (h (by simp [hutx]))
    rcases hp1 : popW s.txSched with ⟨w1, sch1⟩
    cases w1 with
    | wpend => simp [ackPhase, hutx, hev, hp1, BufInv]
    | werr => simp [ackPhase, hutx, hev, hp1, BufInv]
    | wok =>
      rcases hp2 : popW sch1 with ⟨w2, sch2⟩
      cases w2 with
      | werr => simp [ackPhase, hutx, hev, hp1, hp2, BufInv]
      | wok =>
        rcases hp3 : popW sch2 with ⟨w3, sch3⟩
        cases w3 with
        | wok => simp [ackPhase, deliverPhase, hutx, hev, hp1, hp2, hp3, BufInv]
        | wpend => simp [ackPhase, hutx, hev, hp1, hp2, hp3, BufInv]
        | werr => simp [ackPhase, hutx, hev, hp1, hp2, hp3, BufInv]
      | wpend =>
        rcases hp3 : popW sch2 with ⟨w3, sch3⟩
        cases w3 with
        | wok => simp [ackPhase, deliverPhase, hutx, hev, hp1, hp2, hp3, BufInv]
        | wpend => simp [ackPhase, hutx, hev, hp1, hp2, hp3, BufInv]
        | werr => simp [ackPhase, hutx, hev, hp1, hp2, hp3, BufInv]

theorem recvPhase_inv :
    ∀ (fuel : Nat) (s : TsEventSock), s.unacked_txid = none → s.unacked_event = none →
      (recvPhase s fuel).2 ≠ .panicOut ∧ BufInv (recvPhase s fuel).1 := by
  intro fuel
  induction fuel with
  | zero =>
    intro s h1 h2
    exact ⟨by simp [recvPhase], by simp [recvPhase, BufInv, h1]⟩
  | succ fuel ih =>
    intro s h1 h2
    rcases hrx : s.rx with _ | ⟨item, rest⟩
    · exact ⟨by simp [recvPhase, hrx], by simp [recvPhase, hrx, BufInv, h1]⟩
    · cases item with
      | rxErr => exact ⟨by simp [recvPhase, hrx], by simp [recvPhase, hrx, BufInv, h1]⟩
      | rxPending =>
        rcases hp : popW s.txSched with ⟨w, sch⟩
        cases w <;>
          exact ⟨by simp [recvPhase, hrx, hp], by simp [recvPhase, hrx, hp, BufInv, h1]⟩
      | pkt p =>
        by_cases hack : p.kind = 4
        · have := ih {s with rx := rest} (by simpa using h1) (by simpa using h2)
          simpa [recvPhase, hrx, hack, TsPacketKind.toU8] using this
        · by_cases hevk : p.kind = 3
          · by_cases hshort : p.payload.length < 12
            · exact ⟨by simp [recvPhase, hrx, hack, hevk, hshort, TsPacketKind.toU8],
                by simp [recvPhase, hrx, hack, hevk, hshort, BufInv, h1, TsPacketKind.toU8]⟩
            · rcases hfr : Event.fromRead (p.payload.drop 8) with e | ev
              · exact ⟨by simp [recvPhase, hrx, hack, hevk, hshort, hfr, TsPacketKind.toU8],
                  by simp [recvPhase, hrx, hack, hevk, hshort, hfr, BufInv, h1, TsPacketKind.toU8]⟩
              · rcases hap : ackPhase {s with rx := rest, unacked_txid := some (readU64 p.payload), unacked_event := some ev} with ⟨s2, oo⟩
                have hai := ackPhase_inv {s with rx := rest, unacked_txid := some (readU64 p.payload), unacked_event := some ev} (by simp [BufInv])
                rw [hap] at hai
                cases oo with
                | some out =>
                  refine ⟨?_, ?_⟩
                  · simp only [recvPhase, hrx, hack, hevk, hshort, hfr, hap, TsPacketKind.toU8]
                    simp only [h1, h2]
                    simp
                    intro hcon
                    exact hai.1 (by rw [hcon])
                  · simp only [recvPhase, hrx, hack, hevk, hshort, hfr, hap, TsPacketKind.toU8]
                    simp only [h1, h2]
                    simpa using hai.2.1
                | none =>
                  have hboth := hai.2.2 rfl
                  have := ih s2 hboth.1 hboth.2
                  refine ⟨?_, ?_⟩
                  · simp only [recvPhase, hrx, hack, hevk, hshort, hfr, hap, TsPacketKind.toU8]
                    simp only [h1, h2]
                    simpa using this.1
                  · simp only [recvPhase, hrx, hack, hevk, hshort, hfr, hap, TsPacketKind.toU8]
                    simp only [h1, h2]
                    simpa using this.2
          · have := ih {s with rx := rest} (by simpa using h1) (by simpa using h2)
            simpa [recvPhase, hrx, hack, hevk, TsPacketKind.toU8] using this

theorem pollNext_inv (s : TsEventSock) (h : BufInv s) :
    s.pollNext.2 ≠ .panicOut ∧ BufInv s.pollNext.1 := by
  rcases hap : ackPhase s with ⟨s1, oo⟩
  have hai := ackPhase_inv s h
  rw [hap] at hai
  cases oo with
  | some out =>
    refine ⟨?_, ?_⟩
    · simp only [TsEventSock.pollNext, hap]
      intro hcon
      exact hai.1 (by rw [hcon])
    · simp only [TsEventSock.pollNext, hap]
      exact hai.2.1
  | none =>
    have hboth := hai.2.2 rfl
    have := recvPhase_inv s1.rx.length s1 hboth.1 hboth.2
    refine ⟨?_, ?_⟩
    · simp only [TsEventSock.pollNext, hap]
      exact this.1
    · simp only [TsEventSock.pollNext, hap]
      exact this.2

/-- Claim C9: in every state reachable from a fresh socket through any
sequence of `poll_next`, `start_send`, `poll_ready`, `poll_flush`,
`poll_close` calls (with the environment free to supply any inbound data
and write readiness between calls), `unacked_txid` is `Some` only when
`unacked_event` is also `Some`, and the next `poll_next` never fails an
`assert!` (in particular a decoded inbound Event is only buffered when both
single-slot buffers are `None` — the `panicOut` outcome models a failing
assertion, and it never occurs). -/
theorem ts_socket_assert_invariant (rx : List RxItem) (sched : List WRes)
    (cs : List TsCall) :
    BufInv (runCalls (TsEventSock.new rx sched) cs) ∧
    (runCalls (TsEventSock.new rx sched) cs).pollNext.2 ≠ .panicOut := by
  have step : ∀ (s : TsEventSock) (c : TsCall), BufInv s → BufInv (stepCall s c) := by
    intro s c h
    cases c with
    | cPollNext => exact (pollNext_inv s h).2
    | cStartSend ev =>
      rcases hp : popW (s.txSched) with ⟨w, sch⟩
      cases w <;> simpa [stepCall, TsEventSock.startSend, hp, BufInv] using h
    | cPollReady =>
      rcases hp : popW s.txSched with ⟨w, sch⟩
      simpa [stepCall, TsEventSock.pollWrite, hp, BufInv] using h
    | cPollFlush =>
      rcases hp : popW s.txSched with ⟨w, sch⟩
      simpa [stepCall, TsEventSock.pollWrite, hp, BufInv] using h
    | cPollClose =>
      rcases hp : popW s.txSched with ⟨w, sch⟩
      simpa [stepCall, TsEventSock.pollWrite, hp, BufInv] using h
    | cEnv rx2 sched2 => simpa [stepCall, BufInv] using h
  have run : ∀ (l : List TsCall) (s : TsEventSock), BufInv s → BufInv (runCalls s l) := by
    intro l
    induction l with
    | nil => intro s h; exact h
    | cons c l ih => intro s h; exact ih _ (step s c h)
  have hnew : BufInv (TsEventSock.new rx sched) := by
    simp [BufInv, TsEventSock.new]
  refine ⟨run cs _ hnew, (pollNext_inv _ (run cs _ hnew)).1⟩

/-- Fold `start_send` over a list of events. -/
def sendAll (s : TsEventSock) (evs : List Event) : TsEventSock :=
  evs.foldl (fun s e => (s.startSend e).1) s

/-- The packets `start_send` produces for consecutive events beginning at
txid `t` (the counter wraps as a u64). -/
def eventPacketsFrom (t : Nat) : List Event → List CloudProtoPacket
  | [] => []
  | e :: es => mkEventPacket t e :: eventPacketsFrom ((t + 0x100) % 2 ^ 64) es

theorem u64beBytes_mod (x : Nat) : u64beBytes (x % 2 ^ 64) = u64beBytes x := by
  simp only [u64beBytes, List.cons.injEq, and_true]
  refine ⟨?_, ?_, ?_, ?_, ?_, ?_, ?_, ?_⟩ <;> omega

theorem mkEventPacket_mod (x : Nat) (ev : Event) :
    mkEventPacket (x % 2 ^ 64) ev = mkEventPacket x ev := by
  unfold mkEventPacket
  rw [u64beBytes_mod]

theorem sendAll_spec :
    ∀ (evs : List Event) (s : TsEventSock), s.txSched = [] →
      (sendAll s evs).txSent = s.txSent ++ eventPacketsFrom s.next_txid evs := by
  intro evs
  induction evs with
  | nil => intro s _; simp [sendAll, eventPacketsFrom]
  | cons e es ih =>
    intro s hsch
    have h1 : (s.startSend e).1 =
        {s with txSched := [], next_txid := (s.next_txid + 0x100) % 2 ^ 64,
                txSent := s.txSent ++ [mkEventPacket s.next_txid e]} := by
      simp [TsEventSock.startSend, hsch, popW]
    have h2 : sendAll s (e :: es) = sendAll (s.startSend e).1 es := rfl
    rw [h2, h1, ih _ (by simp)]
    simp [eventPacketsFrom]

theorem eventPacketsFrom_getElem :
    ∀ (evs : List Event) (t n : Nat) (h : n < evs.length), t < 2 ^ 64 →
      (eventPacketsFrom t evs)[n]? =
        some (mkEventPacket ((t + n * 0x100) % 2 ^ 64) (evs.get ⟨n, h⟩)) := by
  intro evs
  induction evs with
  | nil => intro t n h; exact absurd h (by simp)
  | cons e es ih =>
    intro t n h ht
    cases n with
    | zero =>
      simp only [eventPacketsFrom, List.getElem?_cons_zero, List.get_cons_zero,
        Option.some.injEq]
      congr 2
      omega
    | succ n =>
      have hrec := ih ((t + 0x100) % 2 ^ 64) n (by simpa using h)
        (Nat.mod_lt _ (by norm_num))
      simp only [eventPacketsFrom, List.getElem?_cons_succ, hrec, List.get_cons_succ]
      congr 2
      omega

/-- Claim C7: on a freshly created TS event socket (as built by `connect`
and `accept`) the n-th event passed to `start_send` is emitted as a packet
with magic TS, kind Event, version Normal whose payload is the txid
`0x200 + n * 0x100` as a big-endian u64, then the raw event id as a
big-endian u32, then the event data. -/
theorem ts_send_txid_sequence (rx : List RxItem) (evs : List Event) (n : Nat)
    (h : n < evs.length) :
    (sendAll (TsEventSock.new rx []) evs).txSent[n]? =
      some (mkEventPacket (0x200 + n * 0x100) (evs.get ⟨n, h⟩)) := by
  rw [sendAll_spec evs (TsEventSock.new rx []) rfl]
  show ([] ++ eventPacketsFrom 0x200 evs)[n]? = _
  rw [List.nil_append, eventPacketsFrom_getElem evs 0x200 n h (by norm_num)]
  rw [mkEventPacket_mod]

/-- Claim C7 witness: the first two events sent on a fresh socket get txids
0x200 and 0x300. -/
theorem ts_send_txid_sequence_witness :
    (sendAll (TsEventSock.new [] []) [⟨5, none, [9]⟩, ⟨7, none, []⟩]).txSent[0]? =
      some (mkEventPacket 0x200 ⟨5, none, [9]⟩) ∧
    (sendAll (TsEventSock.new [] []) [⟨5, none, [9]⟩, ⟨7, none, []⟩]).txSent[1]? =
      some (mkEventPacket (0x200 + 1 * 0x100) ⟨7, none, []⟩) := by
  constructor
  · exact ts_send_txid_sequence [] [⟨5, none, [9]⟩, ⟨7, none, []⟩] 0 (by decide)
  · exact ts_send_txid_sequence [] [⟨5, none, [9]⟩, ⟨7, none, []⟩] 1 (by decide)

theorem ackPhase_pres (rx0 : List RxItem) (d : List Event) (s : TsEventSock)
    (h : RunInv rx0 d s) :
    RunInv rx0 (d ++ outsOf (ackPhase s).2) (ackPhase s).1 ∧
    ((ackPhase s).2 = none →
      (ackPhase s).1.unacked_txid = none ∧ (ackPhase s).1.unacked_event = none) := by
  obtain ⟨⟨pre, hpre, hacks, hdel⟩, hbuf⟩ := h
  cases hutx : s.unacked_txid with
  | none =>
    cases huev : s.unacked_event with
    | none =>
      constructor
      · refine ⟨⟨pre, ?_, ?_, ?_⟩, ?_⟩
        · simpa [ackPhase, deliverPhase, hutx, huev] using hpre
        · simpa [ackPhase, deliverPhase, hutx, huev] using hacks
        · simp only [ackPhase, deliverPhase, hutx, huev, outsOf]
          simpa [huev] using hdel
        · simp [ackPhase, deliverPhase, hutx, huev, BufInv]
      · intro _
        simp [ackPhase, deliverPhase, hutx, huev]
    | some ev =>
      constructor
      · refine ⟨⟨pre, ?_, ?_, ?_⟩, ?_⟩
        · simpa [ackPhase, deliverPhase, hutx, huev] using hpre
        · simpa [ackPhase, deliverPhase, hutx, huev] using hacks
        · have hdel2 : d ++ [ev] = (wfEventsOf pre).map Prod.snd := by
            rw [huev] at hdel
            simpa using hdel
          simp [ackPhase, deliverPhase, hutx, huev, outsOf, hdel2]
        · simp [ackPhase, deliverPhase, hutx, huev, BufInv]
      · intro hnone
        simp [ackPhase, deliverPhase, hutx, huev] at hnone
  | some txid =>
    cases huev : s.unacked_event with
    | none =>
      exact absurd (hbuf (by simp [hutx])) (by simp [huev])
    | some ev =>
      rcases hp1 : popW s.txSched with ⟨w1, sch1⟩
      cases w1 with
      | wpend =>
        constructor
        · refine ⟨⟨pre, ?_, ?_, ?_⟩, ?_⟩
          · simpa [ackPhase, hutx, huev, hp1] using hpre
          · simpa [ackPhase, hutx, huev, hp1] using hacks
          · simp only [ackPhase, hutx, huev, hp1, outsOf]
            rw [huev] at hdel
            simpa using hdel
          · simpa [ackPhase, hutx, huev, hp1, BufInv] using hbuf
        · intro hnone
          simp [ackPhase, hutx, huev, hp1] at hnone
      | werr =>
        constructor
        · refine ⟨⟨pre, ?_, ?_, ?_⟩, ?_⟩
          · simpa [ackPhase, hutx, huev, hp1] using hpre
          · simpa [ackPhase, hutx, huev, hp1] using hacks
          · simp only [ackPhase, hutx, huev, hp1, outsOf]
            rw [huev] at hdel
            simpa using hdel
          · simpa [ackPhase, hutx, huev, hp1, BufInv] using hbuf
        · intro hnone
          simp [ackPhase, hutx, huev, hp1] at hnone
      | wok =>
        rcases hp2 : popW sch1 with ⟨w2, sch2⟩
        have hsend : ∀ w3 sch3, popW sch2 = (w3, sch3) →
            s.txSent ++ [mkAckPacket txid] =
              (wfEventsOf pre).map (fun q => mkAckPacket q.1) := by
          intro _ _ _
          rw [hutx] at hacks
          simpa using hacks
        cases w2 with
        | werr =>
          constructor
          · refine ⟨⟨pre, ?_, ?_, ?_⟩, ?_⟩
            · simpa [ackPhase, hutx, huev, hp1, hp2] using hpre
            · simpa [ackPhase, hutx, huev, hp1, hp2] using hacks
            · simp only [ackPhase, hutx, huev, hp1, hp2, outsOf]
              rw [huev] at hdel
              simpa using hdel
            · simpa [ackPhase, hutx, huev, hp1, hp2, BufInv] using hbuf
          · intro hnone
            simp [ackPhase, hutx, huev, hp1, hp2] at hnone
        | wok =>
          rcases hp3 : popW sch2 with ⟨w3, sch3⟩
          cases w3 with
          | wpend =>
            constructor
            · refine ⟨⟨pre, ?_, ?_, ?_⟩, ?_⟩
              · simpa [ackPhase, hutx, huev, hp1, hp2, hp3] using hpre
              · simp only [ackPhase, hutx, huev, hp1, hp2, hp3]
                simpa using hsend _ _ hp3
              · simp only [ackPhase, hutx, huev, hp1, hp2, hp3, outsOf]
                rw [huev] at hdel
                simpa using hdel
              · simp [ackPhase, hutx, huev, hp1, hp2, hp3, BufInv]
            · intro hnone
              simp [ackPhase, hutx, huev, hp1, hp2, hp3] at hnone
          | werr =>
            constructor
            · refine ⟨⟨pre, ?_, ?_, ?_⟩, ?_⟩
              · simpa [ackPhase, hutx, huev, hp1, hp2, hp3] using hpre
              · simp only [ackPhase, hutx, huev, hp1, hp2, hp3]
                simpa using hsend _ _ hp3
              · simp only [ackPhase, hutx, huev, hp1, hp2, hp3, outsOf]
                rw [huev] at hdel
                simpa using hdel
              · simp [ackPhase, hutx, huev, hp1, hp2, hp3, BufInv]
            · intro hnone
              simp [ackPhase, hutx, huev, hp1, hp2, hp3] at hnone
          | wok =>
            constructor
            · refine ⟨⟨pre, ?_, ?_, ?_⟩, ?_⟩
              · simpa [ackPhase, deliverPhase, hutx, huev, hp1, hp2, hp3] using hpre
              · simp only [ackPhase, deliverPhase, hutx, huev, hp1, hp2, hp3]
                simpa using hsend _ _ hp3
              · simp only [ackPhase, deliverPhase, hutx, huev, hp1, hp2, hp3, outsOf]
                rw [huev] at hdel
                simpa using hdel
              · simp [ackPhase, deliverPhase, hutx, huev, hp1, hp2, hp3, BufInv]
            · intro hnone
              simp [ackPhase, deliverPhase, hutx, huev, hp1, hp2, hp3] at hnone
        | wpend =>
          rcases hp3 : popW sch2 with ⟨w3, sch3⟩
          cases w3 with
          | wpend =>
            constructor
            · refine ⟨⟨pre, ?_, ?_, ?_⟩, ?_⟩
              · simpa [ackPhase, hutx, huev, hp1, hp2, hp3] using hpre
              · simp only [ackPhase, hutx, huev, hp1, hp2, hp3]
                simpa using hsend _ _ hp3
              · simp only [ackPhase, hutx, huev, hp1, hp2, hp3, outsOf]
                rw [huev] at hdel
                simpa using hdel
              · simp [ackPhase, hutx, huev, hp1, hp2, hp3, BufInv]
            · intro hnone
              simp [ackPhase, hutx, huev, hp1, hp2, hp3] at hnone
          | werr =>
            constructor
            · refine ⟨⟨pre, ?_, ?_, ?_⟩, ?_⟩
              · simpa [ackPhase, hutx, huev, hp1, hp2, hp3] using hpre
              · simp only [ackPhase, hutx, huev, hp1, hp2, hp3]
                simpa using hsend _ _ hp3
              · simp only [ackPhase, hutx, huev, hp1, hp2, hp3, outsOf]
                rw [huev] at hdel
                simpa using hdel
              · simp [ackPhase, hutx, huev, hp1, hp2, hp3, BufInv]
            · intro hnone
              simp [ackPhase, hutx, huev, hp1, hp2, hp3] at hnone
          | wok =>
            constructor
            · refine ⟨⟨pre, ?_, ?_, ?_⟩, ?_⟩
              · simpa [ackPhase, deliverPhase, hutx, huev, hp1, hp2, hp3] using hpre
              · simp only [ackPhase, deliverPhase, hutx, huev, hp1, hp2, hp3]
                simpa using hsend _ _ hp3
              · simp only [ackPhase, deliverPhase, hutx, huev, hp1, hp2, hp3, outsOf]
                rw [huev] at hdel
                simpa using hdel
              · simp [ackPhase, deliverPhase, hutx, huev, hp1, hp2, hp3, BufInv]
            · intro hnone
              simp [ackPhase, deliverPhase, hutx, huev, hp1, hp2, hp3] at hnone

theorem wfEventsOf_append (a b : List RxItem) :
    wfEventsOf (a ++ b) = wfEventsOf a ++ wfEventsOf b := by
  simp [wfEventsOf, List.filterMap_append]

theorem recvPhase_pres (rx0 : List RxItem) :
    ∀ (fuel : Nat) (d : List Event) (s : TsEventSock),
      RunInv rx0 d s → s.unacked_txid = none → s.unacked_event = none →
      RunInv rx0 (d ++ outsOf (some (recvPhase s fuel).2)) (recvPhase s fuel).1 := by
  intro fuel
  induction fuel with
  | zero =>
    intro d s h h1 h2
    simpa [recvPhase, outsOf] using h
  | succ fuel ih =>
    intro d s h h1 h2
    obtain ⟨⟨pre, hpre, hacks, hdel⟩, hbuf⟩ := h
    rcases hrx : s.rx with _ | ⟨item, rest⟩
    · refine ⟨⟨pre, ?_, ?_, ?_⟩, ?_⟩ <;>
        simp_all [recvPhase, outsOf, BufInv, TsPacketKind.toU8]
    · have hpre2 : rx0 = (pre ++ [item]) ++ rest := by
        rw [hpre, hrx]
        simp
      cases item with
      | rxErr =>
        have hwf : wfEventsOf (pre ++ [RxItem.rxErr]) = wfEventsOf pre := by
          simp [wfEventsOf_append, wfEventsOf]
        refine ⟨⟨pre ++ [RxItem.rxErr], ?_, ?_, ?_⟩, ?_⟩ <;>
          simp_all [recvPhase, outsOf, BufInv, TsPacketKind.toU8]
      | rxPending =>
        have hwf : wfEventsOf (pre ++ [RxItem.rxPending]) = wfEventsOf pre := by
          simp [wfEventsOf_append, wfEventsOf]
        rcases hp : popW s.txSched with ⟨w, sch⟩
        cases w <;>
          (refine ⟨⟨pre ++ [RxItem.rxPending], ?_, ?_, ?_⟩, ?_⟩ <;>
            simp_all [recvPhase, outsOf, BufInv, hp, TsPacketKind.toU8])
      | pkt p =>
        by_cases hack : p.kind = 4
        · have hwf : wfEventsOf (pre ++ [RxItem.pkt p]) = wfEventsOf pre := by
            simp [wfEventsOf_append, wfEventsOf, hack, TsPacketKind.toU8]
          have hs0 : RunInv rx0 d {s with rx := rest} := by
            refine ⟨⟨pre ++ [RxItem.pkt p], ?_, ?_, ?_⟩, ?_⟩ <;>
              simp_all [BufInv]
          have := ih d {s with rx := rest} hs0 (by simpa using h1) (by simpa using h2)
          simpa [recvPhase, hrx, hack, TsPacketKind.toU8] using this
        · by_cases hevk : p.kind = 3
          · by_cases hshort : p.payload.length < 12
            · have hwf : wfEventsOf (pre ++ [RxItem.pkt p]) = wfEventsOf pre := by
                simp [wfEventsOf_append, wfEventsOf, hevk, TsPacketKind.toU8]
                omega
              refine ⟨⟨pre ++ [RxItem.pkt p], ?_, ?_, ?_⟩, ?_⟩ <;>
                simp_all [recvPhase, outsOf, BufInv, TsPacketKind.toU8]
            · rcases hfr : Event.fromRead (p.payload.drop 8) with e | ev
              · exact absurd hfr (by
                  rcases hp8 : p.payload.drop 8 with _ | ⟨b3, r3⟩
                  · have := congrArg List.length hp8
                    simp at this
                    omega
                  · rcases hr3 : r3 with _ | ⟨b2, r2⟩
                    · have := congrArg List.length hp8
                      simp [hr3] at this
                      omega
                    · rcases hr2 : r2 with _ | ⟨b1, r1⟩
                      · have := congrArg List.length hp8
                        simp [hr3, hr2] at this
                        omega
                      · rcases hr1 : r1 with _ | ⟨b0, r0⟩
                        · have := congrArg List.length hp8
                          simp [hr3, hr2, hr1] at this
                          omega
                        · simp [Event.fromRead, hr3, hr2, hr1])
              · have h12 : 12 ≤ p.payload.length := by omega
                have hwf : wfEventsOf (pre ++ [RxItem.pkt p]) =
                    wfEventsOf pre ++ [(readU64 p.payload, ev)] := by
                  simp [wfEventsOf_append, wfEventsOf, hevk, hfr, h12, TsPacketKind.toU8]
                have hs1 : RunInv rx0 d {s with rx := rest, unacked_txid := some (readU64 p.payload), unacked_event := some ev} := by
                  refine ⟨⟨pre ++ [RxItem.pkt p], by simpa using hpre2, ?_, ?_⟩, ?_⟩
                  · rw [h1] at hacks
                    simp [hwf, ← hacks]
                  · rw [h2] at hdel
                    simp [hwf, ← hdel]
                  · simp [BufInv]
                rcases hap : ackPhase {s with rx := rest, unacked_txid := some (readU64 p.payload), unacked_event := some ev} with ⟨s2, oo⟩
                have happ := ackPhase_pres rx0 d _ hs1
                rw [hap] at happ
                cases oo with
                | some out =>
                  have hgoal : recvPhase s (fuel + 1) = (s2, out) := by
                    simp [recvPhase, hrx, hack, hevk, hshort, hfr, hap, h1, h2, TsPacketKind.toU8]
                  rw [hgoal]
                  exact happ.1
                | none =>
                  have hfields := happ.2 rfl
                  have hrec := ih (d ++ outsOf none) s2 happ.1 hfields.1 hfields.2
                  have hgoal : recvPhase s (fuel + 1) = recvPhase s2 fuel := by
                    simp [recvPhase, hrx, hack, hevk, hshort, hfr, hap, h1, h2, TsPacketKind.toU8]
                  rw [hgoal]
                  simpa [outsOf] using hrec
          · have hwf : wfEventsOf (pre ++ [RxItem.pkt p]) = wfEventsOf pre := by
              simp [wfEventsOf_append, wfEventsOf, hevk, TsPacketKind.toU8]
            have hs0 : RunInv rx0 d {s with rx := rest} := by
              refine ⟨⟨pre ++ [RxItem.pkt p], ?_, ?_, ?_⟩, ?_⟩ <;>
                simp_all [BufInv]
            have := ih d {s with rx := rest} hs0 (by simpa using h1) (by simpa using h2)
            simpa [recvPhase, hrx, hack, hevk, TsPacketKind.toU8] using this

theorem pollNext_pres (rx0 : List RxItem) (d : List Event) (s : TsEventSock)
    (h : RunInv rx0 d s) :
    RunInv rx0 (d ++ outsOf (some s.pollNext.2)) s.pollNext.1 := by
  rcases hap : ackPhase s with ⟨s1, oo⟩
  have happ := ackPhase_pres rx0 d s h
  rw [hap] at happ
  cases oo with
  | some out =>
    simp only [TsEventSock.pollNext, hap]
    exact happ.1
  | none =>
    have hfields := happ.2 rfl
    have hrec := recvPhase_pres rx0 s1.rx.length (d ++ outsOf none) s1 happ.1
      hfields.1 hfields.2
    simp only [TsEventSock.pollNext, hap]
    simpa [outsOf] using hrec

theorem itemsOut_cons (o : PollOut) (outs : List PollOut) :
    itemsOut (o :: outs) = outsOf (some o) ++ itemsOut outs := by
  cases o <;> simp [itemsOut, outsOf]

theorem runPoll_pres (rx0 : List RxItem) :
    ∀ (k : Nat) (d : List Event) (s : TsEventSock), RunInv rx0 d s →
      RunInv rx0 (d ++ itemsOut (runPoll s k).2) (runPoll s k).1 := by
  intro k
  induction k with
  | zero =>
    intro d s h
    simpa [runPoll, itemsOut] using h
  | succ k ih =>
    intro d s h
    rcases hpn : s.pollNext with ⟨s1, out⟩
    have h1 := pollNext_pres rx0 d s h
    rw [hpn] at h1
    rcases hrp : runPoll s1 k with ⟨s2, outs⟩
    have h2 := ih (d ++ outsOf (some out)) s1 h1
    rw [hrp] at h2
    have hgoal : runPoll s (k + 1) = (s2, out :: outs) := by
      simp [runPoll, hpn, hrp]
    rw [hgoal]
    simpa [itemsOut_cons, List.append_assoc] using h2

/-- Claim C1 (amended): over any run of `poll_next` calls from a fresh
socket, the Ack packets handed to the outbound write half, followed by the
Ack of the possibly still-unsent buffered txid, are exactly the Acks — 8
byte big-endian txid payloads, in order, with matching txids — of the
**well-formed** Event packets consumed from the inbound stream (kind Event
and payload at least 12 bytes; the amendment excludes malformed Event
packets, which produce an error and no Ack); the events delivered to the
caller, followed by the possibly still-buffered event, are the decoded
events of those same packets; and no more events are ever delivered than
Acks were handed to the write half, so each delivered event's Ack was
passed to the write half beforehand. -/
theorem ts_receive_ack_accounting (rx : List RxItem) (sched : List WRes) (k : Nat) :
    ∃ pre,
      rx = pre ++ (runPoll (TsEventSock.new rx sched) k).1.rx ∧
      (runPoll (TsEventSock.new rx sched) k).1.txSent ++
          ((runPoll (TsEventSock.new rx sched) k).1.unacked_txid.toList.map mkAckPacket) =
        (wfEventsOf pre).map (fun q => mkAckPacket q.1) ∧
      itemsOut (runPoll (TsEventSock.new rx sched) k).2 ++
          (runPoll (TsEventSock.new rx sched) k).1.unacked_event.toList =
        (wfEventsOf pre).map Prod.snd ∧
      (itemsOut (runPoll (TsEventSock.new rx sched) k).2).length ≤
        (runPoll (TsEventSock.new rx sched) k).1.txSent.length := by
  have hinit : RunInv rx [] (TsEventSock.new rx sched) := by
    refine ⟨⟨[], by simp [TsEventSock.new], by simp [TsEventSock.new, wfEventsOf], by simp [TsEventSock.new, wfEventsOf]⟩, ?_⟩
    simp [BufInv, TsEventSock.new]
  have h := runPoll_pres rx k [] (TsEventSock.new rx sched) hinit
  obtain ⟨⟨pre, hpre, hacks, hdel⟩, hbuf⟩ := h
  refine ⟨pre, hpre, hacks, by simpa using hdel, ?_⟩
  have hlacks := congrArg List.length hacks
  have hldel := congrArg List.length hdel
  simp only [List.length_append, List.length_map] at hlacks hldel
  have hopt : (runPoll (TsEventSock.new rx sched) k).1.unacked_txid.toList.length ≤
      (runPoll (TsEventSock.new rx sched) k).1.unacked_event.toList.length := by
    rcases hu : (runPoll (TsEventSock.new rx sched) k).1.unacked_txid with _ | t
    · simp
    · have := hbuf (by simp [hu])
      rcases he : (runPoll (TsEventSock.new rx sched) k).1.unacked_event with _ | e
      · rw [he] at this
        simp at this
      · simp
  simp at hldel
  omega

/-- The inbound schedule of the C1 counterexample: a single packet of kind
Event whose payload is 5 bytes — too short to carry a txid and event
header. -/
def cexRx : List RxItem :=
  [.pkt ⟨.TS, TsPacketKind.Event.toU8, .Normal, [0, 0, 0, 0, 0]⟩]

/-- Claim C1 counterexample: polling once consumes one inbound packet of
kind Event, returns a `PayloadTooShort` error, and hands no Ack packet to
the write half (none is pending either) — so the number of Acks sent (0)
differs from the number of Event packets received (1), refuting the claim
for malformed Event packets. -/
theorem ts_receive_ack_accounting_cex :
    (TsEventSock.new cexRx []).pollNext =
      (⟨[], [], [], 0x200, none, none⟩,
        .errItem (.PayloadTooShort 5 12)) ∧
    cexRx = [.pkt ⟨.TS, TsPacketKind.Event.toU8, .Normal, [0, 0, 0, 0, 0]⟩] := by
  exact ⟨by decide, rfl⟩

end CloudProto
